import Mathlib

/-!
Verification of the auto_auction crawl-and-ingest pipeline.

Shallow embedding of the Python source (src/):
* Python `str` values are modelled as `List Char` (ASCII semantics for
  `upper`/`strip`/`isdigit`/`\w`); `None`-able values as `Option`.
* `src/src/extraction/get_details.py`  : `AuctionDataAnalyzer._parse_numeric`
* `src/src/core/db.py`                 : `DatabaseHandler._parse_year`,
  `_parse_mileage`, `_parse_price`, `_parse_date`, staging/merge pipeline,
  `save_sales_data`, processed-urls ledger updates
* `src/src/extraction/get_sales_data.py` : `extract_base_name`,
  `calculate_match_score`, `find_best_match`, `extract_sales_data_from_results`
* `src/src/extraction/get_inventory_data.py` : `AdaptiveRateLimiter`
* `src/backup_before_reorganization/get_data.py` :
  `TrulyDirectDatabaseHandler.bulk_upsert_vehicles_truly_direct`,
  `MemoryOptimizedBrowserPool`
-/

/-- Python strings, modelled as lists of characters. -/
abbrev Str := List Char

/-- Python `str.upper()` (ASCII). -/
def pyUpper (s : Str) : Str := s.map Char.toUpper

/-- Whitespace as used by Python `str.strip()` / `str.split()` (ASCII). -/
def pySpace (c : Char) : Bool := c.isWhitespace

/-- Python `str.strip()`: drop whitespace from both ends. -/
def pyStrip (s : Str) : Str :=
  ((s.dropWhile pySpace).reverse.dropWhile pySpace).reverse

/-- Python `str.split()` with no argument: split on whitespace runs,
discarding empty pieces. -/
def pyWords (s : Str) : List Str :=
  (s.splitOnP pySpace).filter (fun w => w ≠ [])

/-- Decimal value of a digit string, as computed by Python `int` on an
all-digit string. -/
def natOfDigits (s : Str) : Nat :=
  s.foldl (fun a c => 10 * a + (c.toNat - 48)) 0

/-- Python `int(...)` digit tail: digits optionally separated by single
underscores (no leading/trailing/double underscore), checked after the
first digit has been consumed. -/
def pyIntTail : Str → Bool
  | [] => true
  | '_' :: [] => false
  | '_' :: c :: rest => c.isDigit && pyIntTail rest
  | c :: rest => c.isDigit && pyIntTail rest

/-- Digit part of a Python `int` literal (after the optional sign): a digit
followed by `pyIntTail`; its value ignores the underscores. -/
def pyIntCore (u : Str) : Option Nat :=
  match u with
  | [] => none
  | c :: rest =>
    if c.isDigit && pyIntTail rest then some (natOfDigits (u.filter Char.isDigit)) else none

/-- Python `int(string)`: strips surrounding whitespace, accepts an optional
sign followed by digits (with optional single underscores); any other input
raises `ValueError`, modelled as `none`. -/
def pyInt (s : Str) : Option Int :=
  match pyStrip s with
  | [] => none
  | c :: rest =>
    if c = '+' then (pyIntCore rest).map (fun n => (n : Int))
    else if c = '-' then (pyIntCore rest).map (fun n => -(n : Int))
    else (pyIntCore (c :: rest)).map (fun n => (n : Int))

/-- `AuctionDataAnalyzer._parse_numeric` (get_details.py): keep only the
digit characters and read them as an integer, defaulting to 0 for falsy
input or when no digit remains; never raises. -/
def _parse_numeric (value : Str) : Nat :=
  if value = [] then 0
  else
    let cleaned := value.filter Char.isDigit
    if cleaned = [] then 0 else natOfDigits cleaned

/-- `DatabaseHandler._parse_year` (db.py): `int(year_str.strip())`, `None`
for falsy input or on `ValueError`. -/
def _parse_year (year_str : Option Str) : Option Int :=
  match year_str with
  | none => none
  | some t => if t = [] then none else pyInt (pyStrip t)

/-- Removal of every occurrence of `"km"`, scanning left to right, as done
by Python `str.replace("km", "")`. -/
def removeKm : Str → Str
  | [] => []
  | 'k' :: 'm' :: rest => removeKm rest
  | c :: rest => c :: removeKm rest

/-- `DatabaseHandler._parse_mileage` (db.py): remove spaces and `"km"`,
strip, then `int(...)`; `None` for falsy input or on `ValueError`. -/
def _parse_mileage (mileage_str : Option Str) : Option Int :=
  match mileage_str with
  | none => none
  | some t =>
    if t = [] then none
    else pyInt (pyStrip (removeKm (t.filter (fun c => c ≠ ' '))))

/-- `DatabaseHandler._parse_price` (db.py): `int(price_str.strip())`, `None`
for falsy input or on `ValueError`. -/
def _parse_price (price_str : Option Str) : Option Int :=
  match price_str with
  | none => none
  | some t => if t = [] then none else pyInt (pyStrip t)

/-- `DatabaseHandler._parse_date` (db.py): `date_str.strip()`, `None` for
falsy input. -/
def _parse_date (date_str : Option Str) : Option Str :=
  match date_str with
  | none => none
  | some t => if t = [] then none else some (pyStrip t)

lemma mem_pyStrip {c : Char} {s : Str} (h : c ∈ pyStrip s) : c ∈ s := by
  unfold pyStrip at h
  have h1 : c ∈ (s.dropWhile pySpace).reverse.dropWhile pySpace := List.mem_reverse.mp h
  have h2 : c ∈ (s.dropWhile pySpace).reverse := (List.dropWhile_suffix pySpace).mem h1
  exact (List.dropWhile_suffix pySpace).mem (List.mem_reverse.mp h2)

lemma pyIntCore_eq_none {u : Str} (h : ∀ c ∈ u, c.isDigit = false) :
    pyIntCore u = none := by
  cases u with
  | nil => rfl
  | cons c rest =>
    simp only [pyIntCore]
    rw [h c (List.mem_cons_self c rest)]
    simp

lemma pyInt_eq_none {s : Str} (h : ∀ c ∈ s, c.isDigit = false) : pyInt s = none := by
  have hstrip : ∀ c ∈ pyStrip s, c.isDigit = false := fun c hc => h c (mem_pyStrip hc)
  unfold pyInt
  cases ht : pyStrip s with
  | nil => rfl
  | cons c rest =>
    have hrest : ∀ d ∈ rest, d.isDigit = false := by
      intro d hd
      exact hstrip d (ht ▸ List.mem_cons_of_mem c hd)
    have hc : c.isDigit = false := hstrip c (ht ▸ List.mem_cons_self c rest)
    have hcore : pyIntCore (c :: rest) = none :=
      pyIntCore_eq_none (by
        intro d hd
        rcases List.mem_cons.mp hd with h1 | h2
        · exact h1 ▸ hc
        · exact hrest d h2)
    by_cases h1 : c = '+'
    · simp [h1, pyIntCore_eq_none hrest]
    · by_cases h2 : c = '-'
      · simp [h1, h2, pyIntCore_eq_none hrest]
      · simp [h1, h2, hcore]

lemma mem_removeKm {c : Char} : ∀ {s : Str}, c ∈ removeKm s → c ∈ s := by
  intro s
  induction s using removeKm.induct with
  | case1 => intro h; exact absurd h (List.not_mem_nil c)
  | case2 rest ih =>
    intro h
    exact List.mem_cons_of_mem _ (List.mem_cons_of_mem _ (ih h))
  | case3 d rest hne ih =>
    rw [removeKm.eq_3 d rest hne]
    intro h
    rcases List.mem_cons.mp h with h1 | h2
    · exact h1 ▸ List.mem_cons_self d rest
    · exact List.mem_cons_of_mem d (ih h2)

/-- Claim C6 (counterexample): the claim says the numeric-field parse used for
year, mileage and prices strips all non-digit characters and returns the
resulting integer, defaulting to 0 on failure, with `parseNumeric("12,345 km")
= 12345`; but the mileage parser actually used by `save_sales_data`
(`DatabaseHandler._parse_mileage`) leaves the comma in place, so `int` fails
and it returns `None` — neither 12345 nor 0. Only the detail-pass parser
`AuctionDataAnalyzer._parse_numeric` behaves as claimed. -/
theorem parse_numeric_claim_counterexample :
    _parse_mileage (some "12,345 km".toList) = none
  ∧ _parse_mileage (some "12,345 km".toList) ≠ some 12345
  ∧ _parse_mileage (some "12,345 km".toList) ≠ some 0
  ∧ _parse_numeric "12,345 km".toList = 12345 := by
  refine ⟨by decide, by decide, by decide, by decide⟩

/-- Claim C6 (amended): the detail-pass parser `_parse_numeric` strips all
non-digit characters and returns the resulting integer, defaulting to 0 on
parse failure and never raising (in particular on "12,345 km", "- - -" and
""); the per-field parsers in db.py used by `save_sales_data` instead return
`None` — never 0 — on parse failure: `_parse_year`/`_parse_price` accept only
plain integer text, and `_parse_mileage` strips only spaces and "km" (so
"12,345 km" parses to `None` while "12 345km" parses to 12345). -/
theorem parse_numeric_amended :
    (∀ s : Str, _parse_numeric s = _parse_numeric (s.filter Char.isDigit))
  ∧ (∀ s : Str, (∀ c ∈ s, c.isDigit = false) → _parse_numeric s = 0)
  ∧ _parse_numeric "12,345 km".toList = 12345
  ∧ _parse_numeric "- - -".toList = 0
  ∧ _parse_numeric "".toList = 0
  ∧ (∀ s : Str, (∀ c ∈ s, c.isDigit = false) → _parse_year (some s) = none)
  ∧ (∀ s : Str, (∀ c ∈ s, c.isDigit = false) → _parse_mileage (some s) = none)
  ∧ (∀ s : Str, (∀ c ∈ s, c.isDigit = false) → _parse_price (some s) = none)
  ∧ _parse_mileage (some "12,345 km".toList) = none
  ∧ _parse_mileage (some "12 345km".toList) = some 12345
  ∧ _parse_year (some "2015".toList) = some 2015
  ∧ _parse_price (some " 300 ".toList) = some 300 := by
  refine ⟨?_, ?_, by decide, by decide, by decide, ?_, ?_, ?_, by decide, by decide,
    by decide, by decide⟩
  · intro s
    unfold _parse_numeric
    by_cases hs : s = []
    · subst hs; rfl
    · simp only [hs, if_false]
      by_cases hf : s.filter Char.isDigit = []
      · simp [hf]
      · simp [hf, List.filter_filter]
  · intro s h
    have hf : s.filter Char.isDigit = [] := List.filter_eq_nil_iff.mpr (by
      intro c hc; simp [h c hc])
    unfold _parse_numeric
    by_cases hs : s = [] <;> simp [hs, hf]
  · intro s h
    unfold _parse_year
    by_cases hs : s = []
    · simp [hs]
    · simp only [hs, if_false]
      exact pyInt_eq_none (fun c hc => h c (mem_pyStrip hc))
  · intro s h
    unfold _parse_mileage
    by_cases hs : s = []
    · simp [hs]
    · simp only [hs, if_false]
      refine pyInt_eq_none (fun c hc => ?_)
      have h1 : c ∈ removeKm (s.filter (fun c => c ≠ ' ')) := mem_pyStrip hc
      have h2 : c ∈ s.filter (fun c => c ≠ ' ') := mem_removeKm h1
      exact h c (List.mem_filter.mp h2).1
  · intro s h
    unfold _parse_price
    by_cases hs : s = []
    · simp [hs]
    · simp only [hs, if_false]
      exact pyInt_eq_none (fun c hc => h c (mem_pyStrip hc))

/-- Witness for the amended C6 theorem at concrete inputs. -/
theorem parse_numeric_amended_witness :
    _parse_numeric "no digits here".toList = 0
  ∧ _parse_year (some "abc".toList) = none := by
  refine ⟨parse_numeric_amended.2.1 "no digits here".toList (by decide),
    parse_numeric_amended.2.2.2.2.2.1 "abc".toList (by decide)⟩

/-!  Fuzzy match resolver (get_sales_data.py). -/

/-- One attempt of the regex `\s*\([^)]*\)` at the start of `s`: greedy
whitespace, then `(`, then a run of non-`)` characters, then `)`. Returns
the length of the match, `none` when the pattern does not match here
(backtracking cannot help: a shorter whitespace run is followed by
whitespace, and every character before the first `)` is a non-`)`). -/
def matchParen (s : Str) : Option Nat :=
  let w := (s.takeWhile pySpace).length
  match s.drop w with
  | '(' :: after =>
    let body := (after.takeWhile (fun c => c ≠ ')')).length
    match after.drop body with
    | ')' :: _ => some (w + 1 + body + 1)
    | _ => none
  | _ => none

/-- `re.sub(r'\s*\([^)]*\)', '', s)`: left-to-right, non-overlapping removal
of every whitespace-plus-parenthesized group. The fuel argument only makes
the recursion structural; every step consumes at least one character, so
fuel `s.length` never runs out. -/
def subParensGo : Nat → Str → Str
  | _, [] => []
  | 0, s => s
  | fuel + 1, c :: rest =>
    match matchParen (c :: rest) with
    | some k => subParensGo fuel (rest.drop (k - 1))
    | none => c :: subParensGo fuel rest

/-- `re.sub(r'\s*\([^)]*\)', '', s)` with adequate fuel. -/
def subParens (s : Str) : Str := subParensGo s.length s

/-- `extract_base_name` (get_sales_data.py): remove parenthesized groups and
strip. -/
def extract_base_name (option_text : Str) : Str := pyStrip (subParens option_text)

/-- Python `pat in s` (substring containment). -/
def containsSub (pat s : Str) : Bool :=
  (List.range (s.length + 1)).any (fun i => pat.isPrefixOf (s.drop i))

/-- Word character in the sense of `re` `\w` / `\b` (ASCII). -/
def isWordChar (c : Char) : Bool := c.isAlphanum || c = '_'

/-- Whether the character at index `k` (out of range counts as non-word) is
a word character. -/
def wordAt (s : Str) (k : Nat) : Bool := isWordChar (s.getD k ' ')

/-- The regex `\b` assertion at position `k` of `s`. -/
def wordBoundary (s : Str) (k : Nat) : Bool :=
  (if k = 0 then false else wordAt s (k - 1)) != wordAt s k

/-- `re.search(r'\b' + re.escape(pat) + r'\b', s)` as a Boolean: some
occurrence of `pat` with `\b` holding on both sides. -/
def wholeWordB (pat s : Str) : Bool :=
  (List.range (s.length + 1)).any (fun i =>
    pat.isPrefixOf (s.drop i) && wordBoundary s i && wordBoundary s (i + pat.length))

/-- `calculate_match_score` (get_sales_data.py): descending tier of rules on
the uppercased, stripped search term and base name. -/
def calculate_match_score (search_term option_text : Str) : Nat × String :=
  let su := pyStrip (pyUpper search_term)
  let bn := pyStrip (pyUpper (extract_base_name option_text))
  if su = bn then (100, "exact_match")
  else if containsSub su bn && su.isPrefixOf bn
      && ((pyWords bn).length == (pyWords su).length) then
    (95, "base_name_exact")
  else if wholeWordB su bn then
    if (pyWords bn).length == (pyWords su).length then (90, "word_boundary_exact")
    else if (pyWords bn).length == (pyWords su).length + 1 then (85, "word_boundary_close")
    else (80, "word_boundary_variant")
  else if su.isPrefixOf bn then (75, "prefix_match")
  else if containsSub su bn then (70, "contains_match")
  else (0, "no_match")

/-- A dropdown option as produced by `get_dropdown_options`. -/
structure MatchOption where
  value : Str
  text : Str
deriving DecidableEq, Repr

/-- Entry of the `scored_matches` list in `find_best_match`. -/
structure ScoredMatch where
  value : Str
  text : Str
  score : Nat
  reason : String
  base_name : Str
deriving DecidableEq, Repr

/-- The sort order `key=lambda x: (-x['score'], len(x['text']))` used by
`find_best_match`. -/
def matchOrd (a b : ScoredMatch) : Prop :=
  b.score < a.score ∨ (a.score = b.score ∧ a.text.length ≤ b.text.length)

instance : DecidableRel matchOrd := fun a b => by unfold matchOrd; infer_instance

instance : IsTotal ScoredMatch matchOrd := by
  constructor
  intro a b
  unfold matchOrd
  rcases Nat.lt_trichotomy a.score b.score with h | h | h
  · exact Or.inr (Or.inl h)
  · rcases Nat.le_total a.text.length b.text.length with h2 | h2
    · exact Or.inl (Or.inr ⟨h, h2⟩)
    · exact Or.inr (Or.inr ⟨h.symm, h2⟩)
  · exact Or.inl (Or.inl h)

instance : IsTrans ScoredMatch matchOrd := by
  constructor
  intro a b c hab hbc
  unfold matchOrd at *
  rcases hab with h1 | ⟨h1, h1l⟩ <;> rcases hbc with h2 | ⟨h2, h2l⟩
  · exact Or.inl (h2.trans h1)
  · exact Or.inl (h2 ▸ h1)
  · exact Or.inl (h1 ▸ h2)
  · exact Or.inr ⟨h1.trans h2, h1l.trans h2l⟩

/-- The filtered `scored_matches` list built by `find_best_match`: one entry
per option with positive score. -/
def scoredList (search_term : Str) (options : List MatchOption) : List ScoredMatch :=
  options.filterMap (fun o =>
    if 0 < (calculate_match_score search_term o.text).1 then
      some ⟨o.value, o.text, (calculate_match_score search_term o.text).1,
            (calculate_match_score search_term o.text).2, extract_base_name o.text⟩
    else none)

/-- `find_best_match` (get_sales_data.py). Python's `sort` is stable, and the
stable sort for a given key is unique, so it is modelled by the (stable)
insertion sort. -/
def find_best_match (search_term : Str) (options : List MatchOption) :
    Option Str × Option Str × String :=
  if options = [] then (none, none, "no_options")
  else
    match List.insertionSort matchOrd (scoredList search_term options) with
    | [] => (none, none, "no_matches_found")
    | [best] =>
      (some best.value, some best.text,
        best.reason ++ " (score: " ++ toString best.score ++ ")")
    | best :: runner_up :: _ =>
      (some best.value, some best.text,
        best.reason ++ " (score: " ++ toString best.score ++ ") [beat: " ++
          String.mk runner_up.text ++ " (" ++ toString runner_up.score ++ ")]")

/-- Modelled from the spec (claim C2 wording): strip only a TRAILING
parenthetical suffix (optional whitespace, `(`, non-`)` characters, `)`)
from the candidate text; used to state the claim's scoring rules. -/
def stripTrailingParenGroup (s : Str) : Str :=
  match s.reverse with
  | ')' :: rest =>
    let body := rest.takeWhile (fun c => c ≠ '(' && c ≠ ')')
    match rest.drop body.length with
    | '(' :: rest2 => (rest2.dropWhile pySpace).reverse
    | _ => s
  | _ => s

/-- Modelled from the spec (claim C2 wording): the claimed scoring tiers —
exact equality 100; target a whole-word prefix of the base label (prefix
ending at a `\b` boundary) with equal word count 95; target as a whole word
with equal word count 90 / one extra word 85 / more 80; base label starting
with target as substring 75; containment anywhere 70; otherwise 0 — with the
base label obtained by stripping a trailing parenthetical suffix. -/
def specScoreClaim (target option_text : Str) : Nat :=
  let su := pyStrip (pyUpper target)
  let bn := pyStrip (pyUpper (stripTrailingParenGroup option_text))
  if su = bn then 100
  else if su.isPrefixOf bn && wordBoundary bn su.length
      && ((pyWords bn).length == (pyWords su).length) then 95
  else if wholeWordB su bn then
    if (pyWords bn).length == (pyWords su).length then 90
    else if (pyWords bn).length == (pyWords su).length + 1 then 85
    else 80
  else if su.isPrefixOf bn then 75
  else if containsSub su bn then 70
  else 0

/-- The amended scoring specification: as the claim, except that (i) the
base label strips ALL parenthesized groups (with adjacent whitespace), not
only a trailing one, and (ii) the 95 tier requires only that the base label
start with the target (as a substring, no word-boundary requirement) with
equal word count. -/
def specScoreAmended (target option_text : Str) : Nat :=
  let su := pyStrip (pyUpper target)
  let bn := pyStrip (pyUpper (extract_base_name option_text))
  if su = bn then 100
  else if su.isPrefixOf bn && ((pyWords bn).length == (pyWords su).length) then 95
  else if wholeWordB su bn then
    if (pyWords bn).length == (pyWords su).length then 90
    else if (pyWords bn).length == (pyWords su).length + 1 then 85
    else 80
  else if su.isPrefixOf bn then 75
  else if containsSub su bn then 70
  else 0

lemma containsSub_of_isPrefixOf {pat s : Str} (h : pat.isPrefixOf s = true) :
    containsSub pat s = true := by
  unfold containsSub
  refine List.any_eq_true.mpr ⟨0, List.mem_range.mpr (Nat.succ_pos _), ?_⟩
  simpa using h

lemma tier95_cond (su bn : Str) (w : Bool) :
    (containsSub su bn && su.isPrefixOf bn && w) = (su.isPrefixOf bn && w) := by
  cases hb : su.isPrefixOf bn
  · simp [hb]
  · simp [hb, containsSub_of_isPrefixOf hb]

lemma mem_scoredList {target : Str} {options : List MatchOption} {sm : ScoredMatch} :
    sm ∈ scoredList target options ↔
    ∃ o ∈ options, 0 < (calculate_match_score target o.text).1 ∧
      sm = ⟨o.value, o.text, (calculate_match_score target o.text).1,
            (calculate_match_score target o.text).2, extract_base_name o.text⟩ := by
  unfold scoredList
  simp only [List.mem_filterMap]
  constructor
  · rintro ⟨o, ho, hf⟩
    by_cases hp : 0 < (calculate_match_score target o.text).1
    · simp only [hp, if_true, Option.some.injEq] at hf
      exact ⟨o, ho, hp, hf.symm⟩
    · simp [hp] at hf
  · rintro ⟨o, ho, hp, rfl⟩
    exact ⟨o, ho, by simp [hp]⟩

lemma find_best_match_nil (target : Str) :
    find_best_match target [] = (none, none, "no_options") := by
  simp [find_best_match]

lemma find_best_match_all_zero {target : Str} {options : List MatchOption}
    (hopt : options ≠ [])
    (h : ∀ o ∈ options, (calculate_match_score target o.text).1 = 0) :
    find_best_match target options = (none, none, "no_matches_found") := by
  have hS : scoredList target options = [] := by
    unfold scoredList
    refine List.filterMap_eq_nil_iff.mpr (fun o ho => ?_)
    simp [h o ho]
  unfold find_best_match
  simp [hopt, hS]

lemma find_best_match_some_spec {target v t : Str} {options : List MatchOption}
    {info : String}
    (h : find_best_match target options = (some v, some t, info)) :
    ∃ o ∈ options, o.value = v ∧ o.text = t ∧
      0 < (calculate_match_score target o.text).1 ∧
      ∀ o' ∈ options, 0 < (calculate_match_score target o'.text).1 →
        ((calculate_match_score target o'.text).1 < (calculate_match_score target o.text).1
         ∨ ((calculate_match_score target o'.text).1 = (calculate_match_score target o.text).1
            ∧ t.length ≤ o'.text.length)) := by
  unfold find_best_match at h
  by_cases hopt : options = []
  · simp [hopt] at h
  · simp only [hopt, if_false] at h
    cases hsort : List.insertionSort matchOrd (scoredList target options) with
    | nil => rw [hsort] at h; simp at h
    | cons best tail =>
      rw [hsort] at h
      have hbt : best.value = v ∧ best.text = t := by
        cases tail with
        | nil =>
          simp only [Prod.mk.injEq, Option.some.injEq] at h
          exact ⟨h.1, h.2.1⟩
        | cons ru tl =>
          simp only [Prod.mk.injEq, Option.some.injEq] at h
          exact ⟨h.1, h.2.1⟩
      have hmem : best ∈ scoredList target options :=
        (List.perm_insertionSort matchOrd _).subset (hsort ▸ List.mem_cons_self best tail)
      obtain ⟨o, ho, hpos, hsm⟩ := mem_scoredList.mp hmem
      have hval : o.value = v := by rw [← hbt.1, hsm]
      have htxt : o.text = t := by rw [← hbt.2, hsm]
      have hbscore : best.score = (calculate_match_score target o.text).1 := by rw [hsm]
      have hbtext : best.text = o.text := by rw [hsm]
      refine ⟨o, ho, hval, htxt, hpos, ?_⟩
      intro o' ho' hpos'
      have hmem' : (⟨o'.value, o'.text, (calculate_match_score target o'.text).1,
          (calculate_match_score target o'.text).2, extract_base_name o'.text⟩ : ScoredMatch)
          ∈ scoredList target options :=
        mem_scoredList.mpr ⟨o', ho', hpos', rfl⟩
      have hmem'' := (List.perm_insertionSort matchOrd (scoredList target options)).symm.subset hmem'
      rw [hsort] at hmem''
      have hsorted : List.Sorted matchOrd (best :: tail) :=
        hsort ▸ List.sorted_insertionSort matchOrd (scoredList target options)
      rcases List.mem_cons.mp hmem'' with heq | htl
      · have h1 : (calculate_match_score target o'.text).1 = best.score := by rw [← heq]
        have h2 : o'.text = best.text := by rw [← heq]
        right
        refine ⟨by rw [h1, hbscore], ?_⟩
        rw [← htxt]
        simp [h2.trans hbtext]
      · have hrel := List.rel_of_sorted_cons hsorted _ htl
        unfold matchOrd at hrel
        dsimp only at hrel
        rcases hrel with hlt | ⟨heq, hle⟩
        · left
          rw [← hbscore]
          exact hlt
        · right
          refine ⟨heq.symm.trans hbscore, ?_⟩
          rw [← htxt, ← hbtext]
          exact hle

lemma find_best_match_pos {target : Str} {options : List MatchOption}
    (h : ∃ o ∈ options, 0 < (calculate_match_score target o.text).1) :
    ∃ v t info, find_best_match target options = (some v, some t, info) := by
  obtain ⟨o, ho, hpos⟩ := h
  have hopt : options ≠ [] := by rintro rfl; exact absurd ho (List.not_mem_nil o)
  unfold find_best_match
  simp only [hopt, if_false]
  have hmem : (⟨o.value, o.text, (calculate_match_score target o.text).1,
      (calculate_match_score target o.text).2, extract_base_name o.text⟩ : ScoredMatch)
      ∈ scoredList target options := mem_scoredList.mpr ⟨o, ho, hpos, rfl⟩
  cases hsort : List.insertionSort matchOrd (scoredList target options) with
  | nil =>
    have hlen := (List.perm_insertionSort matchOrd (scoredList target options)).length_eq
    rw [hsort] at hlen
    have : scoredList target options ≠ [] := by
      intro hn; rw [hn] at hmem; exact absurd hmem (List.not_mem_nil _)
    exact absurd (List.eq_nil_of_length_eq_zero hlen.symm) this
  | cons best tail =>
    cases tail with
    | nil => exact ⟨best.value, best.text, _, rfl⟩
    | cons ru tl => exact ⟨best.value, best.text, _, rfl⟩

/-- Claim C2 (counterexample): the claimed tier rules disagree with the code.
`calculate_match_score` gives 95 whenever the base label merely starts with
the target (as a substring) with equal word count — no whole-word boundary
required — so target "ACCOR" scores 95 against "ACCORD" where the claim's
tiers give 75; and the code strips ALL parenthesized groups, not only a
trailing suffix, so "CIVIC TYPE R" scores 100 against "CIVIC (EU) TYPE R"
where the claim's tiers give 0. -/
theorem match_score_claim_counterexample :
    (calculate_match_score "ACCOR".toList "ACCORD".toList).1 = 95
  ∧ specScoreClaim "ACCOR".toList "ACCORD".toList = 75
  ∧ (calculate_match_score "CIVIC TYPE R".toList "CIVIC (EU) TYPE R".toList).1 = 100
  ∧ specScoreClaim "CIVIC TYPE R".toList "CIVIC (EU) TYPE R".toList = 0 := by
  exact ⟨by decide, by decide, by decide, by decide⟩

/-- Claim C2 (amended): the resolver scores each candidate by the descending
tiers of `specScoreAmended` (exact 100; base label starts with the target
with equal word count 95; whole-word occurrence 90/85/80 by extra word
count; substring-prefix 75; containment 70; otherwise 0) on the base label
obtained by stripping all parenthesized groups, and returns, among the
positive-scoring candidates, one of maximal score, breaking ties by shortest
candidate text. -/
theorem match_score_amended :
    (∀ s t : Str, (calculate_match_score s t).1 = specScoreAmended s t)
  ∧ (∀ (target : Str) (options : List MatchOption) (v t : Str) (info : String),
      find_best_match target options = (some v, some t, info) →
      ∃ o ∈ options, o.value = v ∧ o.text = t ∧
        0 < (calculate_match_score target o.text).1 ∧
        ∀ o' ∈ options, 0 < (calculate_match_score target o'.text).1 →
          ((calculate_match_score target o'.text).1 < (calculate_match_score target o.text).1
           ∨ ((calculate_match_score target o'.text).1 = (calculate_match_score target o.text).1
              ∧ t.length ≤ o'.text.length)))
  ∧ (∀ (target : Str) (options : List MatchOption),
      (∃ o ∈ options, 0 < (calculate_match_score target o.text).1) →
      ∃ v t info, find_best_match target options = (some v, some t, info)) := by
  refine ⟨?_, fun _ _ _ _ _ h => find_best_match_some_spec h,
    fun _ _ h => find_best_match_pos h⟩
  intro s t
  unfold calculate_match_score specScoreAmended
  simp only [tier95_cond]
  split_ifs <;> rfl

/-- Witness for the amended C2 theorem: on the spec's own example the
resolver picks the base form "ACCORD (267556)" over the decorated variant. -/
theorem match_score_amended_witness :
    ∃ o ∈ [(⟨"1".toList, "ACCORD (267556)".toList⟩ : MatchOption),
           ⟨"2".toList, "ACCORD PHEV (1)".toList⟩],
      o.value = "1".toList ∧ o.text = "ACCORD (267556)".toList ∧
      0 < (calculate_match_score "ACCORD".toList o.text).1 ∧
      ∀ o' ∈ [(⟨"1".toList, "ACCORD (267556)".toList⟩ : MatchOption),
              ⟨"2".toList, "ACCORD PHEV (1)".toList⟩],
        0 < (calculate_match_score "ACCORD".toList o'.text).1 →
        ((calculate_match_score "ACCORD".toList o'.text).1
            < (calculate_match_score "ACCORD".toList o.text).1
         ∨ ((calculate_match_score "ACCORD".toList o'.text).1
              = (calculate_match_score "ACCORD".toList o.text).1
            ∧ ("ACCORD (267556)".toList).length ≤ o'.text.length)) :=
  match_score_amended.2.1 "ACCORD".toList
    [⟨"1".toList, "ACCORD (267556)".toList⟩, ⟨"2".toList, "ACCORD PHEV (1)".toList⟩]
    "1".toList "ACCORD (267556)".toList
    "exact_match (score: 100) [beat: ACCORD PHEV (1) (85)]" (by decide)

/-- Claim C9: the resolver never returns a candidate with score ≤ 0; on an
empty candidate list, or when every candidate scores 0, the result is a
"no match" outcome; the embedding is a total pure function, so no exception
can be raised. -/
theorem find_best_match_no_match :
    (∀ target : Str, find_best_match target [] = (none, none, "no_options"))
  ∧ (∀ (target : Str) (options : List MatchOption), options ≠ [] →
      (∀ o ∈ options, (calculate_match_score target o.text).1 = 0) →
      find_best_match target options = (none, none, "no_matches_found"))
  ∧ (∀ (target : Str) (options : List MatchOption) (v t : Str) (info : String),
      find_best_match target options = (some v, some t, info) →
      ∃ o ∈ options, o.value = v ∧ o.text = t ∧
        0 < (calculate_match_score target o.text).1) := by
  refine ⟨find_best_match_nil, fun _ _ h1 h2 => find_best_match_all_zero h1 h2,
    fun _ _ _ _ _ h => ?_⟩
  obtain ⟨o, ho, hv, ht, hpos, _⟩ := find_best_match_some_spec h
  exact ⟨o, ho, hv, ht, hpos⟩

/-- Witness for the C9 theorem: a nonempty all-zero-scoring candidate list
yields the no-match outcome. -/
theorem find_best_match_no_match_witness :
    find_best_match "XYZ".toList [⟨"9".toList, "QQQ".toList⟩]
      = (none, none, "no_matches_found") :=
  find_best_match_no_match.2.1 "XYZ".toList [⟨"9".toList, "QQQ".toList⟩]
    (by decide) (by decide)

/-!  Adaptive rate limiter (get_inventory_data.py), delays as rationals. -/

/-- `AdaptiveRateLimiter` state (get_inventory_data.py). -/
structure AdaptiveRateLimiter where
  initial_delay : ℚ
  min_delay : ℚ
  max_delay : ℚ
  current_delay : ℚ
  response_times : List ℚ
  error_count : ℕ
  success_count : ℕ
deriving DecidableEq, Repr

/-- `deque(maxlen=10)` append: drop the oldest entry once full. -/
def pushResponse (l : List ℚ) (r : ℚ) : List ℚ :=
  if l.length < 10 then l ++ [r] else l.tail ++ [r]

/-- Average of the recorded response times,
`sum(times) / len(times)`. -/
def avgOf (l : List ℚ) : ℚ := l.sum / l.length

/-- The `if response_time:` update of `wait_and_adapt`: record the latency
(Python truthiness: `None` and 0 are not recorded). -/
def recordLatency (st : AdaptiveRateLimiter) (response_time : Option ℚ) :
    AdaptiveRateLimiter :=
  match response_time with
  | some r =>
    if r ≠ 0 then { st with response_times := pushResponse st.response_times r } else st
  | none => st

/-- The delay-adjustment section of `wait_and_adapt`: on error multiply the
delay by 1.5 capped at `max_delay`; on success, given at least 3 recorded
latencies, multiply by 0.9 floored at `min_delay` when the average is below
1.0 with `error_count == 0`, or by 1.2 capped at `max_delay` when the
average exceeds 3.0. -/
def adaptStep (st : AdaptiveRateLimiter) (had_error : Bool) : AdaptiveRateLimiter :=
  if had_error then
    { st with error_count := st.error_count + 1,
              current_delay := min (st.current_delay * (3/2)) st.max_delay }
  else
    let st' := { st with success_count := st.success_count + 1 }
    if 3 ≤ st'.response_times.length then
      if avgOf st'.response_times < 1 ∧ st'.error_count = 0 then
        { st' with current_delay := max (st'.current_delay * (9/10)) st'.min_delay }
      else if 3 < avgOf st'.response_times then
        { st' with current_delay := min (st'.current_delay * (6/5)) st'.max_delay }
      else st'
    else st'

/-- The trailing `if self.success_count > 10` counter reset. -/
def resetCounters (st : AdaptiveRateLimiter) : AdaptiveRateLimiter :=
  if 10 < st.success_count then { st with error_count := 0, success_count := 0 } else st

/-- `AdaptiveRateLimiter.wait_and_adapt` (the sleep itself carries no state). -/
def wait_and_adapt (st : AdaptiveRateLimiter) (response_time : Option ℚ)
    (had_error : Bool) : AdaptiveRateLimiter :=
  resetCounters (adaptStep (recordLatency st response_time) had_error)

lemma recordLatency_delay (st : AdaptiveRateLimiter) (rt : Option ℚ) :
    (recordLatency st rt).current_delay = st.current_delay := by
  cases rt with
  | none => rfl
  | some r =>
    simp only [recordLatency]
    split <;> rfl

lemma recordLatency_min (st : AdaptiveRateLimiter) (rt : Option ℚ) :
    (recordLatency st rt).min_delay = st.min_delay := by
  cases rt with
  | none => rfl
  | some r =>
    simp only [recordLatency]
    split <;> rfl

lemma recordLatency_max (st : AdaptiveRateLimiter) (rt : Option ℚ) :
    (recordLatency st rt).max_delay = st.max_delay := by
  cases rt with
  | none => rfl
  | some r =>
    simp only [recordLatency]
    split <;> rfl

lemma recordLatency_err (st : AdaptiveRateLimiter) (rt : Option ℚ) :
    (recordLatency st rt).error_count = st.error_count := by
  cases rt with
  | none => rfl
  | some r =>
    simp only [recordLatency]
    split <;> rfl

lemma resetCounters_delay (st : AdaptiveRateLimiter) :
    (resetCounters st).current_delay = st.current_delay := by
  unfold resetCounters
  split <;> rfl

lemma adaptStep_range {st : AdaptiveRateLimiter} (e : Bool)
    (h0 : 0 ≤ st.min_delay) (h1 : st.min_delay ≤ st.max_delay)
    (h2 : st.min_delay ≤ st.current_delay) (h3 : st.current_delay ≤ st.max_delay) :
    st.min_delay ≤ (adaptStep st e).current_delay
    ∧ (adaptStep st e).current_delay ≤ st.max_delay := by
  have hc : 0 ≤ st.current_delay := h0.trans h2
  unfold adaptStep
  cases e with
  | true =>
    constructor
    · exact le_min (h2.trans (by linarith)) h1
    · exact min_le_right _ _
  | false =>
    simp only [Bool.false_eq_true, if_false]
    split
    · split
      · exact ⟨le_max_right _ _, max_le (by linarith) h1⟩
      · split
        · exact ⟨le_min (h2.trans (by linarith)) h1, min_le_right _ _⟩
        · exact ⟨h2, h3⟩
    · exact ⟨h2, h3⟩

/-- The state used by the C3 counterexample: delay 1/2 within
[1/10, 3], one recorded latency, no errors. -/
def rlC3 : AdaptiveRateLimiter :=
  { initial_delay := 1/2, min_delay := 1/10, max_delay := 3, current_delay := 1/2,
    response_times := [1/2], error_count := 0, success_count := 0 }

/-- Claim C3 (counterexample): a success is reported with latency 1/2; the
recorded history becomes [1/2, 1/2] with average 1/2 below the low threshold
and no errors have occurred, yet the delay is NOT multiplied by 0.9 — the
code adapts only once at least 3 latencies have been recorded, a guard the
claim omits. -/
theorem rate_limiter_claim_counterexample :
    (recordLatency rlC3 (some (1/2))).response_times = [1/2, 1/2]
  ∧ avgOf (recordLatency rlC3 (some (1/2))).response_times < 1
  ∧ rlC3.error_count = 0
  ∧ (wait_and_adapt rlC3 (some (1/2)) false).current_delay = rlC3.current_delay
  ∧ (wait_and_adapt rlC3 (some (1/2)) false).current_delay
      ≠ max (rlC3.current_delay * (9/10)) rlC3.min_delay := by
  refine ⟨by norm_num [recordLatency, rlC3, pushResponse],
    by norm_num [recordLatency, rlC3, pushResponse, avgOf], rfl,
    by norm_num [wait_and_adapt, recordLatency, rlC3, pushResponse, adaptStep,
      resetCounters, avgOf],
    by norm_num [wait_and_adapt, recordLatency, rlC3, pushResponse, adaptStep,
      resetCounters, avgOf]⟩

/-- Claim C3 (amended): on error the delay is multiplied by 1.5 and capped at
the ceiling; on success, PROVIDED at least 3 latencies are recorded, the
delay is multiplied by 0.9 and floored at the floor when the average is
below the low threshold with no errors recorded, and multiplied by 1.2 and
capped at the ceiling when the average exceeds the high threshold; a delay
starting within [floor, ceiling] stays within [floor, ceiling]. -/
theorem rate_limiter_amended :
    (∀ (st : AdaptiveRateLimiter) (rt : Option ℚ),
      (wait_and_adapt st rt true).current_delay
        = min (st.current_delay * (3/2)) st.max_delay)
  ∧ (∀ (st : AdaptiveRateLimiter) (rt : Option ℚ),
      3 ≤ (recordLatency st rt).response_times.length →
      avgOf (recordLatency st rt).response_times < 1 →
      st.error_count = 0 →
      (wait_and_adapt st rt false).current_delay
        = max (st.current_delay * (9/10)) st.min_delay)
  ∧ (∀ (st : AdaptiveRateLimiter) (rt : Option ℚ),
      3 ≤ (recordLatency st rt).response_times.length →
      3 < avgOf (recordLatency st rt).response_times →
      (wait_and_adapt st rt false).current_delay
        = min (st.current_delay * (6/5)) st.max_delay)
  ∧ (∀ (st : AdaptiveRateLimiter) (rt : Option ℚ) (e : Bool),
      0 ≤ st.min_delay → st.min_delay ≤ st.max_delay →
      st.min_delay ≤ st.current_delay → st.current_delay ≤ st.max_delay →
      st.min_delay ≤ (wait_and_adapt st rt e).current_delay
        ∧ (wait_and_adapt st rt e).current_delay ≤ st.max_delay) := by
  refine ⟨?_, ?_, ?_, ?_⟩
  · intro st rt
    unfold wait_and_adapt
    rw [resetCounters_delay]
    simp [adaptStep, recordLatency_delay, recordLatency_max]
  · intro st rt hlen havg herr
    unfold wait_and_adapt
    rw [resetCounters_delay]
    unfold adaptStep
    simp only [Bool.false_eq_true, if_false]
    rw [if_pos hlen, if_pos ⟨havg, by rw [recordLatency_err]; exact herr⟩]
    simp [recordLatency_delay, recordLatency_min]
  · intro st rt hlen havg
    unfold wait_and_adapt
    rw [resetCounters_delay]
    unfold adaptStep
    simp only [Bool.false_eq_true, if_false]
    rw [if_pos hlen, if_neg (fun hand => absurd hand.1 (by
      intro hlt
      exact absurd (hlt.trans (by norm_num : (1:ℚ) < 3)) (not_lt.mpr havg.le))),
      if_pos havg]
    simp [recordLatency_delay, recordLatency_max]
  · intro st rt e h0 h1 h2 h3
    unfold wait_and_adapt
    rw [resetCounters_delay]
    have h0' : 0 ≤ (recordLatency st rt).min_delay := by rw [recordLatency_min]; exact h0
    have h1' : (recordLatency st rt).min_delay ≤ (recordLatency st rt).max_delay := by
      rw [recordLatency_min, recordLatency_max]; exact h1
    have h2' : (recordLatency st rt).min_delay ≤ (recordLatency st rt).current_delay := by
      rw [recordLatency_min, recordLatency_delay]; exact h2
    have h3' : (recordLatency st rt).current_delay ≤ (recordLatency st rt).max_delay := by
      rw [recordLatency_delay, recordLatency_max]; exact h3
    have := adaptStep_range e h0' h1' h2' h3'
    rw [recordLatency_min, recordLatency_max] at this
    exact this

/-- Witness for the amended C3 theorem: three fast latencies recorded, a
success shrinks the delay from 1/2 to 9/20, and the result stays within
[1/10, 3]. -/
theorem rate_limiter_amended_witness :
    (wait_and_adapt
      { initial_delay := 1/2, min_delay := 1/10, max_delay := 3, current_delay := 1/2,
        response_times := [1/10, 1/10], error_count := 0, success_count := 0 }
      (some (1/10)) false).current_delay = max ((1/2 : ℚ) * (9/10)) (1/10) :=
  rate_limiter_amended.2.1
    { initial_delay := 1/2, min_delay := 1/10, max_delay := 3, current_delay := 1/2,
      response_times := [1/10, 1/10], error_count := 0, success_count := 0 }
    (some (1/10)) (by norm_num [recordLatency, pushResponse])
    (by norm_num [recordLatency, pushResponse, avgOf]) rfl

/-!  Paginated row extraction, `extract_sales_data_from_results`
(get_sales_data.py). The page environment abstracts the site: rows shown on
a page, the numeric page-link texts visible there, and load success. -/

/-- Abstraction of the results pages seen by `extract_sales_data_from_results`. -/
structure PageEnv (α : Type) where
  rowsOn : Nat → List α
  anchors : Nat → List Nat
  loadOk : Nat → Bool

/-- The `next_page_exists` page-evaluate: some anchor whose numeric text
exceeds the current page number. -/
def next_page_exists {α : Type} (env : PageEnv α) (page_num : Nat) : Bool :=
  (env.anchors page_num).any (fun m => page_num < m)

/-- The `next_clicked` page-evaluate: an anchor whose text is exactly
`current page + 1` was found and clicked. -/
def next_clicked {α : Type} (env : PageEnv α) (page_num : Nat) : Bool :=
  (env.anchors page_num).contains (page_num + 1)

/-- The `while True` pagination loop of `extract_sales_data_from_results`:
extract the rows of the current page, stop on an empty page, a missing
"next page" control, a failed click, a failed load, or the hard page-count
ceiling (`page_num > 50` checked after the increment); otherwise continue
with the next page. Also returns the list of pages processed. -/
def extract_sales_loop {α : Type} (env : PageEnv α) (page_num : Nat)
    (acc : List α) (pages : List Nat) : List α × List Nat :=
  let pages' := pages ++ [page_num]
  if (env.rowsOn page_num).length = 0 then (acc, pages')
  else
    let acc' := acc ++ env.rowsOn page_num
    if next_page_exists env page_num = false then (acc', pages')
    else if next_clicked env page_num = false then (acc', pages')
    else if env.loadOk (page_num + 1) = false then (acc', pages')
    else if 50 < page_num + 1 then (acc', pages')
    else extract_sales_loop env (page_num + 1) acc' pages'
termination_by 51 - page_num
decreasing_by omega

/-- `extract_sales_data_from_results` (get_sales_data.py): run the
pagination loop from page 1. -/
def extract_sales_data_from_results {α : Type} (env : PageEnv α) :
    List α × List Nat :=
  extract_sales_loop env 1 [] []

lemma extract_sales_loop_length {α : Type} (env : PageEnv α) :
    ∀ (page_num : Nat) (acc : List α) (pages : List Nat),
    (extract_sales_loop env page_num acc pages).2.length
      ≤ pages.length + max 1 (51 - page_num) := by
  intro p acc pages
  induction p, acc, pages using extract_sales_loop.induct env with
  | case1 p acc pages h =>
    rw [extract_sales_loop]
    dsimp only
    rw [if_pos h]
    simp only [List.length_append, List.length_cons, List.length_nil]
    omega
  | case2 p acc pages h1 h2 =>
    rw [extract_sales_loop]
    dsimp only
    rw [if_neg h1, if_pos h2]
    simp only [List.length_append, List.length_cons, List.length_nil]
    omega
  | case3 p acc pages h1 h2 h3 =>
    rw [extract_sales_loop]
    dsimp only
    rw [if_neg h1, if_neg h2, if_pos h3]
    simp only [List.length_append, List.length_cons, List.length_nil]
    omega
  | case4 p acc pages h1 h2 h3 h4 =>
    rw [extract_sales_loop]
    dsimp only
    rw [if_neg h1, if_neg h2, if_neg h3, if_pos h4]
    simp only [List.length_append, List.length_cons, List.length_nil]
    omega
  | case5 p acc pages h1 h2 h3 h4 h5 =>
    rw [extract_sales_loop]
    dsimp only
    rw [if_neg h1, if_neg h2, if_neg h3, if_neg h4, if_pos h5]
    simp only [List.length_append, List.length_cons, List.length_nil]
    omega
  | case6 p acc pages pages' hlen acc' hnext hclick hload hceil ih =>
    rw [extract_sales_loop]
    dsimp only
    rw [if_neg hlen, if_neg hnext, if_neg hclick, if_neg hload, if_neg hceil]
    refine le_trans ih ?_
    have hp : pages' = pages ++ [p] := rfl
    rw [hp]
    simp only [List.length_append, List.length_cons, List.length_nil]
    omega

lemma extract_sales_loop_advance {α : Type} (env : PageEnv α) :
    ∀ (p : Nat) (acc : List α) (pages : List Nat) (q : Nat),
    q + 1 ∈ (extract_sales_loop env p acc pages).2 →
    q + 1 ∈ pages ∨ q + 1 = p ∨ (p ≤ q ∧ next_page_exists env q = true) := by
  intro p acc pages
  induction p, acc, pages using extract_sales_loop.induct env with
  | case1 p acc pages h =>
    intro q hm
    rw [extract_sales_loop] at hm
    dsimp only at hm
    rw [if_pos h] at hm
    rcases List.mem_append.mp hm with h1 | h2
    · exact Or.inl h1
    · exact Or.inr (Or.inl (List.mem_singleton.mp h2))
  | case2 p acc pages h1 h2 =>
    intro q hm
    rw [extract_sales_loop] at hm
    dsimp only at hm
    rw [if_neg h1, if_pos h2] at hm
    rcases List.mem_append.mp hm with hh | hh
    · exact Or.inl hh
    · exact Or.inr (Or.inl (List.mem_singleton.mp hh))
  | case3 p acc pages h1 h2 h3 =>
    intro q hm
    rw [extract_sales_loop] at hm
    dsimp only at hm
    rw [if_neg h1, if_neg h2, if_pos h3] at hm
    rcases List.mem_append.mp hm with hh | hh
    · exact Or.inl hh
    · exact Or.inr (Or.inl (List.mem_singleton.mp hh))
  | case4 p acc pages h1 h2 h3 h4 =>
    intro q hm
    rw [extract_sales_loop] at hm
    dsimp only at hm
    rw [if_neg h1, if_neg h2, if_neg h3, if_pos h4] at hm
    rcases List.mem_append.mp hm with hh | hh
    · exact Or.inl hh
    · exact Or.inr (Or.inl (List.mem_singleton.mp hh))
  | case5 p acc pages h1 h2 h3 h4 h5 =>
    intro q hm
    rw [extract_sales_loop] at hm
    dsimp only at hm
    rw [if_neg h1, if_neg h2, if_neg h3, if_neg h4, if_pos h5] at hm
    rcases List.mem_append.mp hm with hh | hh
    · exact Or.inl hh
    · exact Or.inr (Or.inl (List.mem_singleton.mp hh))
  | case6 p acc pages pages' hlen acc' hnext hclick hload hceil ih =>
    intro q hm
    rw [extract_sales_loop] at hm
    dsimp only at hm
    rw [if_neg hlen, if_neg hnext, if_neg hclick, if_neg hload, if_neg hceil] at hm
    have hnext' : next_page_exists env p = true := by
      revert hnext
      cases next_page_exists env p <;> simp
    rcases ih q hm with hh | hh | hh
    · have hp : pages' = pages ++ [p] := rfl
      rw [hp] at hh
      rcases List.mem_append.mp hh with h1 | h2
      · exact Or.inl h1
      · exact Or.inr (Or.inl (List.mem_singleton.mp h2))
    · have : q = p := by omega
      exact Or.inr (Or.inr ⟨this.ge, this ▸ hnext'⟩)
    · exact Or.inr (Or.inr ⟨by omega, hh.2⟩)

lemma extract_sales_loop_last {α : Type} (env : PageEnv α) :
    ∀ (p : Nat) (acc : List α) (pages : List Nat) (q : Nat),
    q ∈ (extract_sales_loop env p acc pages).2 → q ∉ pages →
    next_page_exists env q = false →
    (extract_sales_loop env p acc pages).2.getLast? = some q := by
  intro p acc pages
  induction p, acc, pages using extract_sales_loop.induct env with
  | case1 p acc pages h =>
    intro q hm hnp hq
    rw [extract_sales_loop] at hm ⊢
    dsimp only at hm ⊢
    rw [if_pos h] at hm ⊢
    have : q = p := by
      rcases List.mem_append.mp hm with h1 | h2
      · exact absurd h1 hnp
      · exact List.mem_singleton.mp h2
    rw [this]
    exact List.getLast?_concat pages
  | case2 p acc pages h1 h2 =>
    intro q hm hnp hq
    rw [extract_sales_loop] at hm ⊢
    dsimp only at hm ⊢
    rw [if_neg h1, if_pos h2] at hm ⊢
    have : q = p := by
      rcases List.mem_append.mp hm with hh | hh
      · exact absurd hh hnp
      · exact List.mem_singleton.mp hh
    rw [this]
    exact List.getLast?_concat pages
  | case3 p acc pages h1 h2 h3 =>
    intro q hm hnp hq
    rw [extract_sales_loop] at hm ⊢
    dsimp only at hm ⊢
    rw [if_neg h1, if_neg h2, if_pos h3] at hm ⊢
    have : q = p := by
      rcases List.mem_append.mp hm with hh | hh
      · exact absurd hh hnp
      · exact List.mem_singleton.mp hh
    rw [this]
    exact List.getLast?_concat pages
  | case4 p acc pages h1 h2 h3 h4 =>
    intro q hm hnp hq
    rw [extract_sales_loop] at hm ⊢
    dsimp only at hm ⊢
    rw [if_neg h1, if_neg h2, if_neg h3, if_pos h4] at hm ⊢
    have : q = p := by
      rcases List.mem_append.mp hm with hh | hh
      · exact absurd hh hnp
      · exact List.mem_singleton.mp hh
    rw [this]
    exact List.getLast?_concat pages
  | case5 p acc pages h1 h2 h3 h4 h5 =>
    intro q hm hnp hq
    rw [extract_sales_loop] at hm ⊢
    dsimp only at hm ⊢
    rw [if_neg h1, if_neg h2, if_neg h3, if_neg h4, if_pos h5] at hm ⊢
    have : q = p := by
      rcases List.mem_append.mp hm with hh | hh
      · exact absurd hh hnp
      · exact List.mem_singleton.mp hh
    rw [this]
    exact List.getLast?_concat pages
  | case6 p acc pages pages' hlen acc' hnext hclick hload hceil ih =>
    intro q hm hnp hq
    rw [extract_sales_loop] at hm ⊢
    dsimp only at hm ⊢
    rw [if_neg hlen, if_neg hnext, if_neg hclick, if_neg hload, if_neg hceil] at hm ⊢
    have hqp : q ≠ p := by
      intro he
      rw [he] at hq
      exact hnext hq
    have hnp' : q ∉ pages' := by
      have hp : pages' = pages ++ [p] := rfl
      rw [hp]
      intro hin
      rcases List.mem_append.mp hin with hh | hh
      · exact hnp hh
      · exact hqp (List.mem_singleton.mp hh)
    exact ih q hm hnp' hq

def env3 : PageEnv Nat :=
  { rowsOn := fun p =>
      if p = 1 then (List.range 10).map (fun i => 100 + i)
      else if p = 2 then (List.range 10).map (fun i => 200 + i)
      else if p = 3 then (List.range 4).map (fun i => 300 + i)
      else [],
    anchors := fun p =>
      if p = 1 then [2, 3] else if p = 2 then [1, 3] else if p = 3 then [1, 2] else [],
    loadOk := fun _ => true }

/-- Claim C7: the pagination loop advances to the next page only when a
page-number control greater than the current page exists (conjunct 2), stops
requesting further pages as soon as no such control exists (conjunct 3: such
a page is the last one processed), terminates after processing at most 50
pages (conjunct 1), and on a 3-page stream of 10/10/4 rows whose next-page
control disappears after page 3 it returns exactly 24 rows and requests no
page 4 (conjuncts 4 and 5: the processed pages are exactly [1, 2, 3]). -/
theorem pagination_ok :
    (∀ (α : Type) (env : PageEnv α),
      ((extract_sales_data_from_results env).2).length ≤ 50)
  ∧ (∀ (α : Type) (env : PageEnv α) (q : Nat),
      q + 1 ∈ (extract_sales_data_from_results env).2 → 1 ≤ q →
      next_page_exists env q = true)
  ∧ (∀ (α : Type) (env : PageEnv α) (q : Nat),
      q ∈ (extract_sales_data_from_results env).2 →
      next_page_exists env q = false →
      ((extract_sales_data_from_results env).2).getLast? = some q)
  ∧ (extract_sales_data_from_results env3).1.length = 24
  ∧ (extract_sales_data_from_results env3).2 = [1, 2, 3] := by
  refine ⟨?_, ?_, ?_, ?_, ?_⟩
  · intro α env
    have h := extract_sales_loop_length env 1 [] []
    unfold extract_sales_data_from_results
    simpa using h
  · intro α env q hm hq
    rcases extract_sales_loop_advance env 1 [] [] q hm with hh | hh | hh
    · exact absurd hh (List.not_mem_nil _)
    · omega
    · exact hh.2
  · intro α env q hm hq
    exact extract_sales_loop_last env 1 [] [] q hm (List.not_mem_nil q) hq
  · unfold extract_sales_data_from_results
    rw [extract_sales_loop]
    norm_num [env3, next_page_exists, next_clicked]
    rw [extract_sales_loop]
    norm_num [env3, next_page_exists, next_clicked]
    rw [extract_sales_loop]
    norm_num [env3, next_page_exists, next_clicked]
  · unfold extract_sales_data_from_results
    rw [extract_sales_loop]
    norm_num [env3, next_page_exists, next_clicked]
    rw [extract_sales_loop]
    norm_num [env3, next_page_exists, next_clicked]
    rw [extract_sales_loop]
    norm_num [env3, next_page_exists, next_clicked]

/-- Witness for the C7 theorem: in the 3-page scenario, page 3 (with no
greater page-number control) is the last page processed. -/
theorem pagination_ok_witness :
    ((extract_sales_data_from_results env3).2).getLast? = some 3 :=
  pagination_ok.2.2.1 Nat env3 3
    (by rw [pagination_ok.2.2.2.2]; decide) (by decide)

/-!  Ingestion pipeline (db.py): staging insert, staging-to-main merge with
upsert on conflict key (site_name, lot_number). Store writes are modelled
over the column set supplied by this pipeline; per-batch chunking with no
failures composes to a single fold over the rows in order. -/

/-- A row of the `vehicles` table, over the columns written by the staged
merge (`process_staging_to_main`) and the strict per-listing variant
(`bulk_upsert_vehicles_truly_direct`). -/
structure VehicleRow where
  site_name : Option Str
  lot_number : Option Str
  make : Option Str
  model : Option Str
  year : Option Str
  mileage : Option Str
  start_price : Option Str
  end_price : Option Str
  grade : Option Str
  color : Option Str
  result : Option Str
  scores : Option Str
  lot_link : Option Str
  auction : Option Str
  search_date : Option Str
  created_at : Option Str
deriving DecidableEq, Repr

/-- An extracted listing dictionary (`listing.get(...)` fields used by the
ingestion functions). -/
structure Listing where
  site_name : Option Str
  lot_number : Option Str
  make : Option Str
  model : Option Str
  year : Option Str
  mileage : Option Str
  start_price : Option Str
  end_price : Option Str
  grade : Option Str
  color : Option Str
  result : Option Str
  scores : Option Str
  lot_link : Option Str
  auction : Option Str
  search_date : Option Str
deriving DecidableEq, Repr

/-- The upsert conflict key `site_name,lot_number`. -/
def vkey (r : VehicleRow) : Option Str × Option Str := (r.site_name, r.lot_number)

/-- The in-memory deduplication key `(listing.get("site_name"),
listing.get("lot_number"))`. -/
def dkey (l : Listing) : Option Str × Option Str := (l.site_name, l.lot_number)

/-- A row of the `staging_vehicles` table. -/
structure StagingRow where
  id : Nat
  site_name : Str
  lot_number : Option Str
  make : Option Str
  model : Option Str
  year : Option Str
  mileage : Option Str
  start_price : Option Str
  end_price : Option Str
  grade : Option Str
  color : Option Str
  result : Option Str
  scores : Option Str
  lot_link : Option Str
  auction : Option Str
  search_date : Option Str
  processed : Bool
deriving DecidableEq, Repr

/-- The staging record built by `bulk_insert_staging_concurrent`: the
`site_name` column holds the function's `site_name` argument, the other
columns the listing's fields, `processed` false. -/
def stagingRecordOf (site : Str) (l : Listing) (id : Nat) : StagingRow :=
  { id := id, site_name := site, lot_number := l.lot_number, make := l.make,
    model := l.model, year := l.year, mileage := l.mileage,
    start_price := l.start_price, end_price := l.end_price, grade := l.grade,
    color := l.color, result := l.result, scores := l.scores,
    lot_link := l.lot_link, auction := l.auction, search_date := l.search_date,
    processed := false }

/-- The `main_record` built from a staging row by `process_staging_to_main`. -/
def mainRecordOf (s : StagingRow) : VehicleRow :=
  { site_name := some s.site_name, lot_number := s.lot_number, make := s.make,
    model := s.model, year := s.year, mileage := s.mileage,
    start_price := s.start_price, end_price := s.end_price, grade := s.grade,
    color := s.color, result := s.result, scores := s.scores,
    lot_link := s.lot_link, auction := s.auction, search_date := s.search_date,
    created_at := none }

/-- The canonical row a listing produces through staging and merge (the
staging id does not survive into the vehicles row). -/
def mainOfListing (site : Str) (l : Listing) : VehicleRow :=
  mainRecordOf (stagingRecordOf site l 0)

/-- The in-memory deduplication of `bulk_insert_staging_concurrent`: keep
the first occurrence of each (site_name, lot_number) key. -/
def dedupeByKey : List Listing → List (Option Str × Option Str) → List Listing
  | [], _ => []
  | l :: rest, seen =>
    if dkey l ∈ seen then dedupeByKey rest seen
    else l :: dedupeByKey rest (dkey l :: seen)

/-- The database state seen by the ingestion pipeline. -/
structure DbState where
  vehicles : List VehicleRow
  staging : List StagingRow
  nextStagingId : Nat
deriving DecidableEq, Repr

/-- `DatabaseHandler.bulk_insert_staging_concurrent`: deduplicate the batch
by key (keeping first occurrences) and insert the rows, unprocessed, into
the staging table. -/
def bulk_insert_staging_concurrent (site : Str) (listings : List Listing)
    (st : DbState) : DbState :=
  let ded := dedupeByKey listings []
  { st with
    staging := st.staging
      ++ ded.enum.map (fun p => stagingRecordOf site p.2 (st.nextStagingId + p.1)),
    nextStagingId := st.nextStagingId + ded.length }

/-- PostgREST `upsert(..., on_conflict="site_name,lot_number")` for one row:
overwrite the row with the conflicting key, or append. -/
def upsertOne : List VehicleRow → VehicleRow → List VehicleRow
  | [], r => [r]
  | x :: xs, r => if vkey x = vkey r then r :: xs else x :: upsertOne xs r

/-- Upsert of a list of rows, in order. -/
def upsertMany (tbl : List VehicleRow) (rs : List VehicleRow) : List VehicleRow :=
  rs.foldl upsertOne tbl

/-- `DatabaseHandler.process_staging_to_main`: move every unprocessed
staging row into the vehicles table via the conflict-key upsert, then mark
those staging rows processed. -/
def process_staging_to_main (st : DbState) : DbState :=
  { st with
    vehicles := upsertMany st.vehicles
      ((st.staging.filter (fun s => s.processed = false)).map mainRecordOf),
    staging := st.staging.map
      (fun s => if s.processed = false then { s with processed := true } else s) }

/-- `stageAndMerge` of the spec: staging insert followed by the merge. -/
def stageAndMerge (site : Str) (listings : List Listing) (st : DbState) : DbState :=
  process_staging_to_main (bulk_insert_staging_concurrent site listings st)

/-- The key column of a vehicles table. -/
def keysOf (tbl : List VehicleRow) : List (Option Str × Option Str) := tbl.map vkey

/-- First row with the given key (the row a keyed `select` returns). -/
def lookupKey (k : Option Str × Option Str) (tbl : List VehicleRow) : Option VehicleRow :=
  tbl.find? (fun r => decide (vkey r = k))

/-- Last row with the given key in a write sequence. -/
def lastKey (k : Option Str × Option Str) (rs : List VehicleRow) : Option VehicleRow :=
  rs.reverse.find? (fun r => decide (vkey r = k))

/-- Number of rows with the given key. -/
def countKey (k : Option Str × Option Str) (tbl : List VehicleRow) : Nat :=
  (tbl.filter (fun r => decide (vkey r = k))).length

lemma lookup_upsertOne_self (tbl : List VehicleRow) (r : VehicleRow) :
    lookupKey (vkey r) (upsertOne tbl r) = some r := by
  induction tbl with
  | nil => simp [upsertOne, lookupKey]
  | cons x xs ih =>
    unfold upsertOne
    by_cases h : vkey x = vkey r
    · simp [h, lookupKey, List.find?]
    · simp only [h, if_false]
      unfold lookupKey at ih ⊢
      rw [List.find?_cons_of_neg _ (by simp [h])]
      exact ih

lemma lookup_upsertOne_other {k : Option Str × Option Str} {r : VehicleRow}
    (tbl : List VehicleRow) (h : k ≠ vkey r) :
    lookupKey k (upsertOne tbl r) = lookupKey k tbl := by
  have hrk : ¬ vkey r = k := fun he => h he.symm
  induction tbl with
  | nil => simp [upsertOne, lookupKey, List.find?, hrk]
  | cons x xs ih =>
    unfold upsertOne
    by_cases hx : vkey x = vkey r
    · have hxk : ¬ vkey x = k := by rw [hx]; exact hrk
      rw [if_pos hx]
      unfold lookupKey
      rw [List.find?_cons_of_neg _ (by simp [hrk]),
        List.find?_cons_of_neg _ (by simp [hxk])]
    · rw [if_neg hx]
      unfold lookupKey at ih ⊢
      by_cases hxk : vkey x = k
      · rw [List.find?_cons_of_pos _ (by simp [hxk]), List.find?_cons_of_pos _ (by simp [hxk])]
      · rw [List.find?_cons_of_neg _ (by simp [hxk]), List.find?_cons_of_neg _ (by simp [hxk])]
        exact ih

lemma keys_upsertOne (tbl : List VehicleRow) (r : VehicleRow) :
    keysOf (upsertOne tbl r)
      = if vkey r ∈ keysOf tbl then keysOf tbl else keysOf tbl ++ [vkey r] := by
  induction tbl with
  | nil => simp [upsertOne, keysOf]
  | cons x xs ih =>
    unfold upsertOne
    by_cases h : vkey x = vkey r
    · simp [keysOf, h]
    · have hne : vkey r ≠ vkey x := fun he => h he.symm
      simp only [h, if_false]
      unfold keysOf at ih ⊢
      by_cases hm : vkey r ∈ xs.map vkey
      · simp [hm, ih, hne]
      · simp [hm, ih, hne]

lemma mem_keys_upsertOne (tbl : List VehicleRow) (r : VehicleRow)
    {k : Option Str × Option Str} (h : k ∈ keysOf tbl) :
    k ∈ keysOf (upsertOne tbl r) := by
  rw [keys_upsertOne]
  split
  · exact h
  · exact List.mem_append_left _ h

lemma self_mem_keys_upsertOne (tbl : List VehicleRow) (r : VehicleRow) :
    vkey r ∈ keysOf (upsertOne tbl r) := by
  rw [keys_upsertOne]
  split
  · assumption
  · simp

lemma nodup_keys_upsertOne {tbl : List VehicleRow} (r : VehicleRow)
    (h : (keysOf tbl).Nodup) : (keysOf (upsertOne tbl r)).Nodup := by
  rw [keys_upsertOne]
  split
  · exact h
  · simp [List.nodup_append, h]
    assumption

lemma nodup_keys_upsertMany {tbl : List VehicleRow} (rs : List VehicleRow)
    (h : (keysOf tbl).Nodup) : (keysOf (upsertMany tbl rs)).Nodup := by
  induction rs generalizing tbl with
  | nil => exact h
  | cons m rs ih => exact ih (nodup_keys_upsertOne m h)

lemma mem_keys_upsertMany_of_mem {tbl : List VehicleRow} (rs : List VehicleRow)
    {k : Option Str × Option Str} (h : k ∈ keysOf tbl) :
    k ∈ keysOf (upsertMany tbl rs) := by
  induction rs generalizing tbl with
  | nil => exact h
  | cons m rs ih => exact ih (mem_keys_upsertOne tbl m h)

lemma mem_keys_upsertMany_of_write {tbl : List VehicleRow} (rs : List VehicleRow)
    {k : Option Str × Option Str} (h : ∃ r ∈ rs, vkey r = k) :
    k ∈ keysOf (upsertMany tbl rs) := by
  induction rs generalizing tbl with
  | nil => exact absurd h (by simp)
  | cons m rs ih =>
    rcases h with ⟨r, hr, hk⟩
    rcases List.mem_cons.mp hr with rfl | hr'
    · exact mem_keys_upsertMany_of_mem rs (hk ▸ self_mem_keys_upsertOne tbl r)
    · exact ih ⟨r, hr', hk⟩

lemma lookup_upsertMany (tbl : List VehicleRow) (rs : List VehicleRow)
    (k : Option Str × Option Str) :
    lookupKey k (upsertMany tbl rs) = (lastKey k rs).or (lookupKey k tbl) := by
  induction rs generalizing tbl with
  | nil => simp [upsertMany, lastKey]
  | cons m rs ih =>
    have hstep : upsertMany tbl (m :: rs) = upsertMany (upsertOne tbl m) rs := rfl
    rw [hstep, ih]
    have hlast : lastKey k (m :: rs)
        = (lastKey k rs).or (List.find? (fun r => decide (vkey r = k)) [m]) := by
      unfold lastKey
      rw [List.reverse_cons, List.find?_append]
    rw [hlast]
    by_cases hk : vkey m = k
    · have h1 : lookupKey k (upsertOne tbl m) = some m := by
        rw [← hk]
        exact lookup_upsertOne_self tbl m
      rw [h1]
      have h2 : List.find? (fun r => decide (vkey r = k)) [m] = some m := by
        simp [List.find?, hk]
      rw [h2, Option.or_assoc]
      simp
    · have h1 : lookupKey k (upsertOne tbl m) = lookupKey k tbl :=
        lookup_upsertOne_other tbl (fun he => hk he.symm)
      rw [h1]
      have h2 : List.find? (fun r => decide (vkey r = k)) [m] = none := by
        simp [List.find?, hk]
      rw [h2]
      simp

lemma table_ext : ∀ (T T' : List VehicleRow), (keysOf T).Nodup →
    keysOf T = keysOf T' →
    (∀ k, k ∈ keysOf T → lookupKey k T = lookupKey k T') → T = T'
  | [], [], _, _, _ => rfl
  | [], y :: ys, _, hk, _ => by simp [keysOf] at hk
  | x :: xs, [], _, hk, _ => by simp [keysOf] at hk
  | x :: xs, y :: ys, hn, hk, hl => by
    have hkey : vkey x = vkey y ∧ keysOf xs = keysOf ys := by
      unfold keysOf at hk
      simpa using hk
    have hx : lookupKey (vkey x) (x :: xs) = some x := by
      unfold lookupKey
      rw [List.find?_cons_of_pos _ (by simp)]
    have hy : lookupKey (vkey x) (y :: ys) = some y := by
      unfold lookupKey
      rw [List.find?_cons_of_pos _ (by simp [hkey.1.symm])]
    have hxy : x = y := by
      have := hl (vkey x) (by unfold keysOf; simp)
      rw [hx, hy] at this
      exact Option.some.injEq _ _ ▸ this
    have hnx : vkey x ∉ keysOf xs := by
      unfold keysOf at hn ⊢
      simpa using (List.nodup_cons.mp hn).1
    have htail : xs = ys := by
      refine table_ext xs ys ?_ hkey.2 ?_
      · unfold keysOf at hn ⊢
        exact (List.nodup_cons.mp hn).2
      · intro k hkm
        have hkx : k ≠ vkey x := fun he => hnx (he ▸ hkm)
        have h1 : lookupKey k (x :: xs) = lookupKey k xs := by
          unfold lookupKey
          rw [List.find?_cons_of_neg _ (by simp; exact fun he => hkx he.symm)]
        have h2 : lookupKey k (y :: ys) = lookupKey k ys := by
          unfold lookupKey
          rw [List.find?_cons_of_neg _ (by
            simp
            rw [← hkey.1]
            exact fun he => hkx he.symm)]
        have := hl k (by
          unfold keysOf
          simp only [List.map_cons, List.mem_cons]
          exact Or.inr hkm)
        rw [h1, h2] at this
        exact this
    rw [hxy, htail]

lemma lastKey_all {k : Option Str × Option Str} (rs : List VehicleRow)
    (h : ∀ r ∈ rs, vkey r = k) : lastKey k rs = rs.getLast? := by
  unfold lastKey
  rw [List.getLast?_eq_head?_reverse]
  have h' : ∀ r ∈ rs.reverse, vkey r = k := fun r hr => h r (List.mem_reverse.mp hr)
  cases hrev : rs.reverse with
  | nil => rfl
  | cons a l =>
    rw [List.find?_cons_of_pos _ (by simp [h' a (hrev ▸ List.mem_cons_self a l)])]
    rfl

lemma countKey_eq_one {k : Option Str × Option Str} :
    ∀ {tbl : List VehicleRow}, (keysOf tbl).Nodup → k ∈ keysOf tbl →
    countKey k tbl = 1 := by
  intro tbl
  induction tbl with
  | nil => intro _ h; simp [keysOf] at h
  | cons x xs ih =>
    intro hn hm
    have hn' := List.nodup_cons.mp (by simpa only [keysOf, List.map_cons] using hn)
    by_cases hx : vkey x = k
    · have hnx : k ∉ keysOf xs := hx ▸ hn'.1
      have hfil : xs.filter (fun r => decide (vkey r = k)) = [] := by
        refine List.filter_eq_nil_iff.mpr (fun r hr => ?_)
        simp only [decide_eq_true_eq]
        intro he
        exact hnx (he ▸ List.mem_map_of_mem vkey hr)
      unfold countKey
      rw [List.filter_cons_of_pos (by simp [hx]), hfil]
      rfl
    · have hm' : k ∈ keysOf xs := by
        rcases (by simpa [keysOf] using hm : k = vkey x ∨ k ∈ List.map vkey xs) with he | hmm
        · exact absurd he.symm hx
        · exact hmm
      unfold countKey at ih ⊢
      rw [List.filter_cons_of_neg (by simp [hx])]
      exact ih hn'.2 hm'

lemma lastKey_append (k : Option Str × Option Str) (A B : List VehicleRow) :
    lastKey k (A ++ B) = (lastKey k B).or (lastKey k A) := by
  unfold lastKey
  rw [List.reverse_append, List.find?_append]

lemma mainRecordOf_stagingRecordOf (site : Str) (l : Listing) (i : Nat) :
    mainRecordOf (stagingRecordOf site l i) = mainOfListing site l := rfl

lemma stageAndMerge_vehicles (site : Str) (batch : List Listing) (st : DbState) :
    (stageAndMerge site batch st).vehicles
      = upsertMany st.vehicles
        (((st.staging.filter (fun s => s.processed = false)).map mainRecordOf)
          ++ (dedupeByKey batch []).map (mainOfListing site)) := by
  unfold stageAndMerge process_staging_to_main bulk_insert_staging_concurrent
  dsimp only
  rw [List.filter_append, List.map_append]
  congr 2
  rw [List.filter_eq_self.mpr (by
    intro s hs
    rcases List.mem_map.mp hs with ⟨p, _, rfl⟩
    simp [stagingRecordOf])]
  rw [List.map_map]
  have hcomp : (mainRecordOf ∘ fun p : Nat × Listing =>
      stagingRecordOf site p.2 (st.nextStagingId + p.1))
      = (mainOfListing site) ∘ Prod.snd := by
    funext p
    exact mainRecordOf_stagingRecordOf site p.2 _
  rw [hcomp, ← List.map_map, List.enum_map_snd]

lemma staging_all_processed (st : DbState) :
    ∀ s ∈ (process_staging_to_main st).staging, s.processed = true := by
  intro s hs
  unfold process_staging_to_main at hs
  dsimp only at hs
  rcases List.mem_map.mp hs with ⟨u, _, rfl⟩
  by_cases hu : u.processed = false
  · simp [hu]
  · simp only [hu, if_false]
    exact eq_true_of_ne_false hu

lemma stageAndMerge_staging_processed (site : Str) (batch : List Listing)
    (st : DbState) :
    ∀ s ∈ (stageAndMerge site batch st).staging, s.processed = true :=
  staging_all_processed _

lemma keys_upsertMany_of_present {tbl : List VehicleRow} (rs : List VehicleRow)
    (h : ∀ r ∈ rs, vkey r ∈ keysOf tbl) :
    keysOf (upsertMany tbl rs) = keysOf tbl := by
  induction rs generalizing tbl with
  | nil => rfl
  | cons m rs ih =>
    have hkm : keysOf (upsertOne tbl m) = keysOf tbl := by
      rw [keys_upsertOne, if_pos (h m (List.mem_cons_self m rs))]
    have : keysOf (upsertMany (upsertOne tbl m) rs) = keysOf (upsertOne tbl m) :=
      ih (fun r hr => hkm ▸ h r (List.mem_cons_of_mem m hr))
    exact this.trans hkm

lemma dedupe_mem : ∀ (listings : List Listing) (seen : List (Option Str × Option Str))
    (l : Listing), l ∈ listings →
    dkey l ∈ seen ∨ ∃ l' ∈ dedupeByKey listings seen, dkey l' = dkey l := by
  intro listings
  induction listings with
  | nil => intro seen l h; exact absurd h (List.not_mem_nil l)
  | cons x xs ih =>
    intro seen l hl
    rcases List.mem_cons.mp hl with rfl | hl'
    · by_cases hx : dkey l ∈ seen
      · exact Or.inl hx
      · refine Or.inr ⟨l, ?_, rfl⟩
        unfold dedupeByKey
        rw [if_neg hx]
        exact List.mem_cons_self l _
    · by_cases hx : dkey x ∈ seen
      · rcases ih seen l hl' with hin | ⟨l', hl'', hk⟩
        · exact Or.inl hin
        · refine Or.inr ⟨l', ?_, hk⟩
          unfold dedupeByKey
          rw [if_pos hx]
          exact hl''
      · rcases ih (dkey x :: seen) l hl' with hin | ⟨l', hl'', hk⟩
        · rcases List.mem_cons.mp hin with he | hseen
          · refine Or.inr ⟨x, ?_, he.symm⟩
            unfold dedupeByKey
            rw [if_neg hx]
            exact List.mem_cons_self x _
          · exact Or.inl hseen
        · refine Or.inr ⟨l', ?_, hk⟩
          unfold dedupeByKey
          rw [if_neg hx]
          exact List.mem_cons_of_mem x hl''

lemma stageAndMerge_idem (site : Str) (batch : List Listing) (st : DbState)
    (h : (keysOf st.vehicles).Nodup) :
    (stageAndMerge site batch (stageAndMerge site batch st)).vehicles
      = (stageAndMerge site batch st).vehicles := by
  have hv1 := stageAndMerge_vehicles site batch st
  have hfilter1 : (stageAndMerge site batch st).staging.filter
      (fun s => s.processed = false) = [] := by
    refine List.filter_eq_nil_iff.mpr (fun s hs => ?_)
    simp [stageAndMerge_staging_processed site batch st s hs]
  have hv2 : (stageAndMerge site batch (stageAndMerge site batch st)).vehicles
      = upsertMany (stageAndMerge site batch st).vehicles
          ((dedupeByKey batch []).map (mainOfListing site)) := by
    rw [stageAndMerge_vehicles, hfilter1]
    rfl
  have hnod1 : (keysOf (stageAndMerge site batch st).vehicles).Nodup := by
    rw [hv1]
    exact nodup_keys_upsertMany _ h
  have hpres : ∀ r ∈ (dedupeByKey batch []).map (mainOfListing site),
      vkey r ∈ keysOf (stageAndMerge site batch st).vehicles := by
    intro r hr
    rw [hv1]
    exact mem_keys_upsertMany_of_write _ ⟨r, List.mem_append_right _ hr, rfl⟩
  rw [hv2]
  have hkeys : keysOf (upsertMany (stageAndMerge site batch st).vehicles
      ((dedupeByKey batch []).map (mainOfListing site)))
      = keysOf (stageAndMerge site batch st).vehicles :=
    keys_upsertMany_of_present _ hpres
  refine table_ext _ _ (by rw [hkeys]; exact hnod1) hkeys ?_
  intro k _
  rw [lookup_upsertMany]
  rw [hv1, lookup_upsertMany, lastKey_append]
  cases hc : lastKey k ((dedupeByKey batch []).map (mainOfListing site)) with
  | none => simp [hc]
  | some m => simp [hc]

/-- Claim C1: after the staged merge the canonical vehicles table has at most
one row per (site_name, lot_number) key (Nodup keys preserved, and each
staged key occurs exactly once); running the merge again with the same batch
leaves the vehicles table unchanged; the upsert overwrites on conflict
(lookup after a one-row upsert yields that row) and a sequence of upserts
with the same key leaves exactly the last write. -/
theorem staged_merge_upsert_ok (st : DbState) (site : Str) (batch : List Listing)
    (h : (keysOf st.vehicles).Nodup) :
    (keysOf (stageAndMerge site batch st).vehicles).Nodup
  ∧ (stageAndMerge site batch (stageAndMerge site batch st)).vehicles
      = (stageAndMerge site batch st).vehicles
  ∧ (∀ l ∈ batch,
      countKey (some site, l.lot_number) (stageAndMerge site batch st).vehicles = 1)
  ∧ (∀ (tbl : List VehicleRow) (r : VehicleRow),
      lookupKey (vkey r) (upsertOne tbl r) = some r)
  ∧ (∀ (tbl : List VehicleRow) (rs : List VehicleRow) (k : Option Str × Option Str),
      rs ≠ [] → (∀ r ∈ rs, vkey r = k) →
      lookupKey k (upsertMany tbl rs) = rs.getLast?) := by
  have hnod1 : (keysOf (stageAndMerge site batch st).vehicles).Nodup := by
    rw [stageAndMerge_vehicles]
    exact nodup_keys_upsertMany _ h
  refine ⟨hnod1, stageAndMerge_idem site batch st h, ?_, lookup_upsertOne_self, ?_⟩
  · intro l hl
    have hmem : (some site, l.lot_number)
        ∈ keysOf (stageAndMerge site batch st).vehicles := by
      rw [stageAndMerge_vehicles]
      rcases dedupe_mem batch [] l hl with hin | ⟨l', hl', hk⟩
      · exact absurd hin (List.not_mem_nil _)
      · refine mem_keys_upsertMany_of_write _
          ⟨mainOfListing site l', List.mem_append_right _ (List.mem_map_of_mem _ hl'), ?_⟩
        have hlot : l'.lot_number = l.lot_number := congrArg Prod.snd hk
        simp [vkey, mainOfListing, mainRecordOf, stagingRecordOf, hlot]
    exact countKey_eq_one hnod1 hmem
  · intro tbl rs k hne hall
    rw [lookup_upsertMany, lastKey_all rs hall]
    cases hg : rs.getLast? with
    | none =>
      have hs := List.getLast?_isSome (l := rs)
      rw [hg] at hs
      simp at hs
      exact absurd hs hne
    | some g => simp

/-- The concrete listing used by the C1 witness. -/
def listingC1 : Listing :=
  { site_name := none, lot_number := some "100".toList, make := some "HONDA".toList,
    model := some "ACCORD".toList, year := some "2015".toList, mileage := none,
    start_price := none, end_price := some "500".toList, grade := none,
    color := none, result := none, scores := none, lot_link := none,
    auction := none, search_date := none }

/-- Witness for the C1 theorem: merging one listing into an empty store
leaves exactly one canonical row for its key. -/
theorem staged_merge_upsert_ok_witness :
    countKey (some "SITEA".toList, some "100".toList)
      (stageAndMerge "SITEA".toList [listingC1] ⟨[], [], 0⟩).vehicles = 1 :=
  (staged_merge_upsert_ok ⟨[], [], 0⟩ "SITEA".toList [listingC1] (by decide)).2.2.1
    listingC1 (by decide)

/-!  Strict per-listing ingestion,
`TrulyDirectDatabaseHandler.bulk_upsert_vehicles_truly_direct`
(backup_before_reorganization/get_data.py). -/

/-- A `vehicles` row together with its database id. -/
structure TVRow where
  id : Nat
  row : VehicleRow
deriving DecidableEq, Repr

/-- A `processed_urls` row (the processing ledger). -/
structure UrlRec where
  site_name : Option Str
  url : Str
  vehicle_id : Option Nat
  processed : Bool
  created_at : Option Str
deriving DecidableEq, Repr

/-- State touched by the strict per-listing ingestion. -/
structure TDState where
  vehicles : List TVRow
  ledger : List UrlRec
  nextVid : Nat
deriving DecidableEq, Repr

/-- The `vehicle_record` built per listing (with `created_at` timestamp). -/
def vehicleRecordOfListing (l : Listing) (now : Str) : VehicleRow :=
  { site_name := l.site_name, lot_number := l.lot_number, make := l.make,
    model := l.model, year := l.year, mileage := l.mileage,
    start_price := l.start_price, end_price := l.end_price, grade := l.grade,
    color := l.color, result := l.result, scores := l.scores,
    lot_link := l.lot_link, auction := l.auction, search_date := l.search_date,
    created_at := some now }

/-- `upsert([vehicle_record], on_conflict="site_name,lot_number")` returning
the stored row (`vehicle_result.data[0]`): overwrite the fields of the row
with the conflicting key keeping its id, or insert with a fresh id. -/
def upsert_vehicle_ret : List TVRow → VehicleRow → Nat → TVRow × List TVRow × Nat
  | [], r, nid => (⟨nid, r⟩, [⟨nid, r⟩], nid + 1)
  | x :: xs, r, nid =>
    if vkey x.row = vkey r then (⟨x.id, r⟩, ⟨x.id, r⟩ :: xs, nid)
    else ((upsert_vehicle_ret xs r nid).1, x :: (upsert_vehicle_ret xs r nid).2.1,
          (upsert_vehicle_ret xs r nid).2.2)

/-- `upsert([url_record], on_conflict="site_name,url")` on the ledger. -/
def upsertUrlOne : List UrlRec → UrlRec → List UrlRec
  | [], u => [u]
  | x :: xs, u =>
    if x.site_name = u.site_name ∧ x.url = u.url then u :: xs else x :: upsertUrlOne xs u

/-- One iteration of `bulk_upsert_vehicles_truly_direct`: upsert the vehicle;
then, when the stored row has a `lot_link`, look the ledger up by
`vehicle_id`: update the entry (new url, `processed` reset to false) when its
url changed, leave it alone when unchanged, create it when absent. -/
def process_listing_truly_direct (st : TDState) (l : Listing) (now : Str) : TDState :=
  let res := upsert_vehicle_ret st.vehicles (vehicleRecordOfListing l now) st.nextVid
  let v := res.1
  let st1 : TDState := { vehicles := res.2.1, ledger := st.ledger, nextVid := res.2.2 }
  match v.row.lot_link with
  | none => st1
  | some link =>
    match st1.ledger.find? (fun u => decide (u.vehicle_id = some v.id)) with
    | some e =>
      if e.url ≠ link then
        { st1 with ledger := st1.ledger.map (fun u =>
            if u.vehicle_id = some v.id then { u with url := link, processed := false }
            else u) }
      else st1
    | none =>
      let urec : UrlRec :=
        { site_name := v.row.site_name, url := link, vehicle_id := some v.id,
          processed := false, created_at := some now }
      { st1 with ledger := upsertUrlOne st1.ledger urec }

/-- `bulk_upsert_vehicles_truly_direct`: dedupe the batch by key (keeping
first occurrences), then process each listing individually. -/
def bulk_upsert_vehicles_truly_direct (listings : List Listing) (now : Str)
    (st : TDState) : TDState :=
  (dedupeByKey listings []).foldl (fun s l => process_listing_truly_direct s l now) st

lemma uvr_row (tbl : List TVRow) (r : VehicleRow) (nid : Nat) :
    (upsert_vehicle_ret tbl r nid).1.row = r := by
  induction tbl with
  | nil => rfl
  | cons x xs ih =>
    unfold upsert_vehicle_ret
    by_cases h : vkey x.row = vkey r
    · rw [if_pos h]
    · rw [if_neg h]
      exact ih

lemma uvr_mem (tbl : List TVRow) (r : VehicleRow) (nid : Nat) :
    (upsert_vehicle_ret tbl r nid).1 ∈ (upsert_vehicle_ret tbl r nid).2.1 := by
  induction tbl with
  | nil => exact List.mem_singleton.mpr rfl
  | cons x xs ih =>
    unfold upsert_vehicle_ret
    by_cases h : vkey x.row = vkey r
    · rw [if_pos h]
      exact List.mem_cons_self _ _
    · rw [if_neg h]
      exact List.mem_cons_of_mem _ ih

lemma uvr_length (tbl : List TVRow) (r : VehicleRow) (nid : Nat) :
    (upsert_vehicle_ret tbl r nid).2.1.length
      = if ∃ x ∈ tbl, vkey x.row = vkey r then tbl.length else tbl.length + 1 := by
  induction tbl with
  | nil => simp [upsert_vehicle_ret]
  | cons x xs ih =>
    unfold upsert_vehicle_ret
    by_cases h : vkey x.row = vkey r
    · rw [if_pos h, if_pos ⟨x, List.mem_cons_self x xs, h⟩]
      rfl
    · rw [if_neg h]
      have hiff : (∃ y ∈ x :: xs, vkey y.row = vkey r)
          ↔ (∃ y ∈ xs, vkey y.row = vkey r) := by
        constructor
        · rintro ⟨y, hy, hk⟩
          rcases List.mem_cons.mp hy with rfl | hy'
          · exact absurd hk h
          · exact ⟨y, hy', hk⟩
        · rintro ⟨y, hy, hk⟩
          exact ⟨y, List.mem_cons_of_mem x hy, hk⟩
      by_cases hx : ∃ y ∈ xs, vkey y.row = vkey r
      · rw [if_pos (hiff.mpr hx)]
        simp only [List.length_cons]
        rw [ih, if_pos hx]
      · rw [if_neg (fun hc => hx (hiff.mp hc))]
        simp only [List.length_cons]
        rw [ih, if_neg hx]

lemma mem_upsertUrlOne_self (lst : List UrlRec) (u : UrlRec) :
    u ∈ upsertUrlOne lst u := by
  induction lst with
  | nil => exact List.mem_singleton.mpr rfl
  | cons x xs ih =>
    unfold upsertUrlOne
    split
    · exact List.mem_cons_self u xs
    · exact List.mem_cons_of_mem x ih

/-- Claim C8: in the strict per-listing ingestion variant, the canonical row
is upserted — the stored row carries exactly the listing's fields, is present
in the table, and no duplicate is created for an existing key — and then,
when the stored row has a detail link: a ledger entry keyed on the row's id
is created (url, processed=false) when absent; when present with a different
url, every entry with that vehicle id gets the new url and its processed
flag reset to false; when present with the same url, the ledger is
unchanged. -/
theorem truly_direct_ok (st : TDState) (l : Listing) (now : Str) (link : Str)
    (hl : l.lot_link = some link) :
    ((upsert_vehicle_ret st.vehicles (vehicleRecordOfListing l now) st.nextVid).1.row
      = vehicleRecordOfListing l now)
  ∧ ((upsert_vehicle_ret st.vehicles (vehicleRecordOfListing l now) st.nextVid).1
      ∈ (process_listing_truly_direct st l now).vehicles)
  ∧ ((∃ x ∈ st.vehicles, vkey x.row = vkey (vehicleRecordOfListing l now)) →
      (process_listing_truly_direct st l now).vehicles.length = st.vehicles.length)
  ∧ ((st.ledger.find? (fun u => decide (u.vehicle_id
        = some (upsert_vehicle_ret st.vehicles (vehicleRecordOfListing l now)
          st.nextVid).1.id)) = none) →
      ({ site_name := l.site_name, url := link,
         vehicle_id := some (upsert_vehicle_ret st.vehicles
           (vehicleRecordOfListing l now) st.nextVid).1.id,
         processed := false, created_at := some now } : UrlRec)
        ∈ (process_listing_truly_direct st l now).ledger)
  ∧ (∀ e, st.ledger.find? (fun u => decide (u.vehicle_id
        = some (upsert_vehicle_ret st.vehicles (vehicleRecordOfListing l now)
          st.nextVid).1.id)) = some e →
      e.url ≠ link →
      ∀ u ∈ (process_listing_truly_direct st l now).ledger,
        u.vehicle_id = some (upsert_vehicle_ret st.vehicles
          (vehicleRecordOfListing l now) st.nextVid).1.id →
        u.url = link ∧ u.processed = false)
  ∧ (∀ e, st.ledger.find? (fun u => decide (u.vehicle_id
        = some (upsert_vehicle_ret st.vehicles (vehicleRecordOfListing l now)
          st.nextVid).1.id)) = some e →
      e.url = link →
      (process_listing_truly_direct st l now).ledger = st.ledger) := by
  have hrow := uvr_row st.vehicles (vehicleRecordOfListing l now) st.nextVid
  have hlink : (upsert_vehicle_ret st.vehicles (vehicleRecordOfListing l now)
      st.nextVid).1.row.lot_link = some link := by
    rw [hrow]
    exact hl
  unfold process_listing_truly_direct
  dsimp only
  rw [hlink]
  dsimp only
  refine ⟨hrow, ?_, ?_, ?_, ?_, ?_⟩
  · cases hfind : List.find? (fun u => decide (u.vehicle_id
        = some (upsert_vehicle_ret st.vehicles (vehicleRecordOfListing l now)
          st.nextVid).1.id)) st.ledger with
    | none =>
      dsimp only
      exact uvr_mem _ _ _
    | some e =>
      dsimp only
      split
      · exact uvr_mem _ _ _
      · exact uvr_mem _ _ _
  · intro hex
    cases hfind : List.find? (fun u => decide (u.vehicle_id
        = some (upsert_vehicle_ret st.vehicles (vehicleRecordOfListing l now)
          st.nextVid).1.id)) st.ledger with
    | none =>
      dsimp only
      rw [uvr_length, if_pos hex]
    | some e =>
      dsimp only
      split
      · dsimp only
        rw [uvr_length, if_pos hex]
      · dsimp only
        rw [uvr_length, if_pos hex]
  · intro hf
    rw [hf]
    dsimp only
    rw [hrow]
    exact mem_upsertUrlOne_self _ _
  · intro e hf he u hu hid
    rw [hf] at hu
    dsimp only at hu
    rw [if_pos he] at hu
    dsimp only at hu
    rcases List.mem_map.mp hu with ⟨u0, _, rfl⟩
    by_cases h0 : u0.vehicle_id = some (upsert_vehicle_ret st.vehicles
        (vehicleRecordOfListing l now) st.nextVid).1.id
    · rw [if_pos h0]
      exact ⟨rfl, rfl⟩
    · rw [if_neg h0] at hid
      exact absurd hid h0
  · intro e hf he
    rw [hf]
    dsimp only
    rw [if_neg (by simp [he])]

/-- The concrete listing used by the C8 witness. -/
def listingC8 : Listing :=
  { site_name := some "SITEB".toList, lot_number := some "200".toList,
    make := some "TOYOTA".toList, model := some "AQUA".toList,
    year := some "2018".toList, mileage := none, start_price := none,
    end_price := none, grade := none, color := none, result := none,
    scores := none, lot_link := some "httpx".toList, auction := none,
    search_date := none }

/-- Witness for the C8 theorem: ingesting one listing with a detail link
into an empty store creates its ledger entry, unprocessed, keyed on the new
row's id. -/
theorem truly_direct_ok_witness :
    ({ site_name := some "SITEB".toList, url := "httpx".toList, vehicle_id := some 0,
       processed := false, created_at := some "T0".toList } : UrlRec)
      ∈ (process_listing_truly_direct ⟨[], [], 0⟩ listingC8 "T0".toList).ledger :=
  (truly_direct_ok ⟨[], [], 0⟩ listingC8 "T0".toList "httpx".toList rfl).2.2.2.1 rfl

/-!  Processing-ledger updates on `processed_urls` (db.py). -/

/-- A `processed_urls` ledger entry. -/
structure UrlEntry where
  id : Nat
  site_name : Option Str
  url : Option Str
  vehicle_id : Option Nat
  processed : Bool
  processing_completed : Option Str
  error_message : Option Str
deriving DecidableEq, Repr

/-- Python truthiness of an optional string (`if error_message:`). -/
def pyTruthy (m : Option Str) : Bool :=
  match m with
  | none => false
  | some s => s ≠ []

/-- `DatabaseHandler.mark_record_processed_concurrent`: set `processed` true
and the completion timestamp; the error message is left untouched. -/
def mark_record_processed_concurrent (ledger : List UrlEntry) (record_id : Nat)
    (now : Str) : List UrlEntry :=
  ledger.map (fun e =>
    if e.id = record_id then
      { e with processed := true, processing_completed := some now }
    else e)

/-- `DatabaseHandler.mark_url_failed_concurrent`: set `processed` false, the
completion timestamp, and overwrite the error message (possibly with NULL). -/
def mark_url_failed_concurrent (ledger : List UrlEntry) (record_id : Nat)
    (error_message : Option Str) (now : Str) : List UrlEntry :=
  ledger.map (fun e =>
    if e.id = record_id then
      { e with processed := false, processing_completed := some now,
               error_message := error_message }
    else e)

/-- `DatabaseHandler.mark_url_processed`: set `processed` to the success
flag and the completion timestamp; the error message is written only when
truthy, otherwise left untouched. -/
def mark_url_processed (ledger : List UrlEntry) (url_id : Nat) (success : Bool)
    (error_message : Option Str) (now : Str) : List UrlEntry :=
  ledger.map (fun e =>
    if e.id = url_id then
      { e with processed := success, processing_completed := some now,
               error_message :=
                 if pyTruthy error_message then error_message else e.error_message }
    else e)

/-- The ledger used by the C5 counterexample: one fresh unprocessed entry. -/
def ledgerC5 : List UrlEntry := [⟨1, none, none, none, false, none, none⟩]

/-- Claim C5 (counterexample): after an entry fails (error message "boom",
processed false) the claimed invariant still holds; marking it completed
then sets processed=true and the completion timestamp but does NOT clear the
error message, so an entry ends with processed=true and a non-null error
message — refuting the claim that processed=true implies a null error
message after every ledger-updating operation. -/
theorem ledger_invariant_counterexample :
    (∀ e ∈ mark_url_failed_concurrent ledgerC5 1 (some "boom".toList) "t1".toList,
      e.processed = true → e.processing_completed.isSome = true ∧ e.error_message = none)
  ∧ (∃ e ∈ mark_record_processed_concurrent
        (mark_url_failed_concurrent ledgerC5 1 (some "boom".toList) "t1".toList)
        1 "t2".toList,
      e.processed = true ∧ e.error_message = some "boom".toList) := by
  refine ⟨by decide, by decide⟩

/-- Claim C5 (amended): after each ledger-updating operation (marking an
entry completed, failed, or processed with a success flag), every entry with
processed=true has its completion timestamp set; the error message, however,
is not cleared on success and may remain non-null. -/
theorem ledger_processed_completed (ledger : List UrlEntry)
    (h : ∀ e ∈ ledger, e.processed = true → e.processing_completed.isSome = true) :
    (∀ (rid : Nat) (now : Str),
      ∀ e ∈ mark_record_processed_concurrent ledger rid now,
      e.processed = true → e.processing_completed.isSome = true)
  ∧ (∀ (rid : Nat) (msg : Option Str) (now : Str),
      ∀ e ∈ mark_url_failed_concurrent ledger rid msg now,
      e.processed = true → e.processing_completed.isSome = true)
  ∧ (∀ (uid : Nat) (success : Bool) (msg : Option Str) (now : Str),
      ∀ e ∈ mark_url_processed ledger uid success msg now,
      e.processed = true → e.processing_completed.isSome = true) := by
  refine ⟨?_, ?_, ?_⟩
  · intro rid now e he hp
    rcases List.mem_map.mp he with ⟨e0, he0, rfl⟩
    by_cases h0 : e0.id = rid
    · simp [h0]
    · simp only [h0, if_false] at hp ⊢
      exact h e0 he0 hp
  · intro rid msg now e he hp
    rcases List.mem_map.mp he with ⟨e0, he0, rfl⟩
    by_cases h0 : e0.id = rid
    · simp [h0] at hp
    · simp only [h0, if_false] at hp ⊢
      exact h e0 he0 hp
  · intro uid success msg now e he hp
    rcases List.mem_map.mp he with ⟨e0, he0, rfl⟩
    by_cases h0 : e0.id = uid
    · simp [h0]
    · simp only [h0, if_false] at hp ⊢
      exact h e0 he0 hp

/-- Witness for the amended C5 theorem: on the concrete one-entry ledger,
the entry marked completed carries a completion timestamp. -/
theorem ledger_processed_completed_witness :
    (⟨1, none, none, none, true, some "t2".toList, none⟩
      : UrlEntry).processing_completed.isSome = true :=
  (ledger_processed_completed ledgerC5 (by decide)).1 1 "t2".toList
    ⟨1, none, none, none, true, some "t2".toList, none⟩ (by decide) (by decide)

/-!  `save_sales_data` record construction (db.py): truncation of string
fields, numeric parsing, and dropping of None values. -/

/-- `truncate_string(value, max_length=50)` on a string value. -/
def truncate_string (v : Str) : Str := if 50 < v.length then v.take 50 else v

/-- The sales record dictionary fields read by `save_sales_data`. -/
structure SalesRecord where
  site_name : Option Str
  lot_number : Option Str
  make : Option Str
  model : Option Str
  year : Option Str
  grade : Option Str
  model_type : Option Str
  mileage : Option Str
  displacement : Option Str
  transmission : Option Str
  color : Option Str
  auction : Option Str
  sale_date : Option Str
  end_price : Option Str
  result : Option Str
  scores : Option Str
  url : Option Str
  lot_link : Option Str
deriving DecidableEq, Repr

/-- A value stored in the written record: a string or a parsed integer. -/
inductive FieldVal where
  | s (v : Str)
  | i (v : Int)
deriving DecidableEq, Repr

/-- One key of the written dictionary; a `None` value is dropped
(`{k: v for k, v in ... if v is not None}`). -/
def optField (k : String) (v : Option FieldVal) : List (String × FieldVal) :=
  match v with
  | some x => [(k, x)]
  | none => []

/-- The `vehicle_sales_data` dictionary built by `save_sales_data`: string
fields truncated to 50 characters, `year`/`mileage`/`end_price` parsed,
`sale_date` stripped, generated timestamps appended, `None` values
dropped. -/
def vehicle_sales_data (r : SalesRecord) (now : Str) : List (String × FieldVal) :=
  optField "site_name" (r.site_name.map (fun v => FieldVal.s (truncate_string v)))
  ++ optField "lot_number" (r.lot_number.map (fun v => FieldVal.s (truncate_string v)))
  ++ optField "make" (r.make.map (fun v => FieldVal.s (truncate_string v)))
  ++ optField "model" (r.model.map (fun v => FieldVal.s (truncate_string v)))
  ++ optField "year" ((_parse_year r.year).map FieldVal.i)
  ++ optField "grade" (r.grade.map (fun v => FieldVal.s (truncate_string v)))
  ++ optField "model_type" (r.model_type.map (fun v => FieldVal.s (truncate_string v)))
  ++ optField "mileage" ((_parse_mileage r.mileage).map FieldVal.i)
  ++ optField "displacement" (r.displacement.map (fun v => FieldVal.s (truncate_string v)))
  ++ optField "transmission" (r.transmission.map (fun v => FieldVal.s (truncate_string v)))
  ++ optField "color" (r.color.map (fun v => FieldVal.s (truncate_string v)))
  ++ optField "auction" (r.auction.map (fun v => FieldVal.s (truncate_string v)))
  ++ optField "sale_date" ((_parse_date r.sale_date).map FieldVal.s)
  ++ optField "end_price" ((_parse_price r.end_price).map FieldVal.i)
  ++ optField "result" (r.result.map (fun v => FieldVal.s (truncate_string v)))
  ++ optField "scores" (r.scores.map (fun v => FieldVal.s (truncate_string v)))
  ++ optField "url" (r.url.map (fun v => FieldVal.s (truncate_string v)))
  ++ optField "lot_link" (r.lot_link.map (fun v => FieldVal.s (truncate_string v)))
  ++ [("search_date", FieldVal.s now), ("created_at", FieldVal.s now),
      ("last_updated", FieldVal.s now)]

lemma lookup_skip {key k : String} (v : Option FieldVal)
    (rest : List (String × FieldVal)) (h : (key == k) = false) :
    List.lookup key (optField k v ++ rest) = List.lookup key rest := by
  cases v with
  | none => simp [optField]
  | some x => simp [optField, List.lookup, h]

lemma lookup_hit {k : String} (v : Option FieldVal)
    (rest : List (String × FieldVal)) (h : List.lookup k rest = none) :
    List.lookup k (optField k v ++ rest) = v := by
  cases v with
  | none => simpa [optField] using h
  | some x => simp [optField, List.lookup]

example (r : SalesRecord) (now : Str) :
    List.lookup "lot_link" (vehicle_sales_data r now)
      = r.lot_link.map (fun v => FieldVal.s (truncate_string v)) := by
  unfold vehicle_sales_data
  simp only [List.append_assoc]
  rw [lookup_skip _ _ (by decide), lookup_skip _ _ (by decide),
    lookup_skip _ _ (by decide), lookup_skip _ _ (by decide),
    lookup_skip _ _ (by decide), lookup_skip _ _ (by decide),
    lookup_skip _ _ (by decide), lookup_skip _ _ (by decide),
    lookup_skip _ _ (by decide), lookup_skip _ _ (by decide),
    lookup_skip _ _ (by decide), lookup_skip _ _ (by decide),
    lookup_skip _ _ (by decide), lookup_skip _ _ (by decide),
    lookup_skip _ _ (by decide), lookup_skip _ _ (by decide),
    lookup_skip _ _ (by decide),
    lookup_hit _ _ (by simp [List.lookup])]

/-- Claim C10 (amended): in the written `vehicle_sales_data` record every
string field of the input record except `sale_date` is truncated to at most
50 characters (so a detail link or image URL longer than 50 characters is
stored as its first 50 characters), `sale_date` is only stripped of
surrounding whitespace, `year`/`mileage`/`end_price` are parsed integers,
the generated timestamps are stored untruncated, and fields whose computed
value is None are dropped (each lookup equation returns `none` exactly when
the computed value is None). -/
theorem sales_truncation_amended (r : SalesRecord) (now : Str) :
    List.lookup "site_name" (vehicle_sales_data r now)
      = r.site_name.map (fun v => FieldVal.s (truncate_string v))
  ∧ List.lookup "lot_number" (vehicle_sales_data r now)
      = r.lot_number.map (fun v => FieldVal.s (truncate_string v))
  ∧ List.lookup "make" (vehicle_sales_data r now)
      = r.make.map (fun v => FieldVal.s (truncate_string v))
  ∧ List.lookup "model" (vehicle_sales_data r now)
      = r.model.map (fun v => FieldVal.s (truncate_string v))
  ∧ List.lookup "year" (vehicle_sales_data r now)
      = (_parse_year r.year).map FieldVal.i
  ∧ List.lookup "grade" (vehicle_sales_data r now)
      = r.grade.map (fun v => FieldVal.s (truncate_string v))
  ∧ List.lookup "model_type" (vehicle_sales_data r now)
      = r.model_type.map (fun v => FieldVal.s (truncate_string v))
  ∧ List.lookup "mileage" (vehicle_sales_data r now)
      = (_parse_mileage r.mileage).map FieldVal.i
  ∧ List.lookup "displacement" (vehicle_sales_data r now)
      = r.displacement.map (fun v => FieldVal.s (truncate_string v))
  ∧ List.lookup "transmission" (vehicle_sales_data r now)
      = r.transmission.map (fun v => FieldVal.s (truncate_string v))
  ∧ List.lookup "color" (vehicle_sales_data r now)
      = r.color.map (fun v => FieldVal.s (truncate_string v))
  ∧ List.lookup "auction" (vehicle_sales_data r now)
      = r.auction.map (fun v => FieldVal.s (truncate_string v))
  ∧ List.lookup "sale_date" (vehicle_sales_data r now)
      = (_parse_date r.sale_date).map FieldVal.s
  ∧ List.lookup "end_price" (vehicle_sales_data r now)
      = (_parse_price r.end_price).map FieldVal.i
  ∧ List.lookup "result" (vehicle_sales_data r now)
      = r.result.map (fun v => FieldVal.s (truncate_string v))
  ∧ List.lookup "scores" (vehicle_sales_data r now)
      = r.scores.map (fun v => FieldVal.s (truncate_string v))
  ∧ List.lookup "url" (vehicle_sales_data r now)
      = r.url.map (fun v => FieldVal.s (truncate_string v))
  ∧ List.lookup "lot_link" (vehicle_sales_data r now)
      = r.lot_link.map (fun v => FieldVal.s (truncate_string v))
  ∧ List.lookup "search_date" (vehicle_sales_data r now) = some (FieldVal.s now)
  ∧ (∀ v : Str, (truncate_string v).length ≤ 50)
  ∧ (∀ v : Str, 50 < v.length → truncate_string v = v.take 50) := by
  refine ⟨?_, ?_, ?_, ?_, ?_, ?_, ?_, ?_, ?_, ?_, ?_, ?_, ?_, ?_, ?_, ?_, ?_, ?_, ?_, ?_, ?_⟩
  · unfold vehicle_sales_data
    simp only [List.append_assoc]
    rw [lookup_hit _ _ (by rw [lookup_skip _ _ (by decide)]; rw [lookup_skip _ _ (by decide)]; rw [lookup_skip _ _ (by decide)]; rw [lookup_skip _ _ (by decide)]; rw [lookup_skip _ _ (by decide)]; rw [lookup_skip _ _ (by decide)]; rw [lookup_skip _ _ (by decide)]; rw [lookup_skip _ _ (by decide)]; rw [lookup_skip _ _ (by decide)]; rw [lookup_skip _ _ (by decide)]; rw [lookup_skip _ _ (by decide)]; rw [lookup_skip _ _ (by decide)]; rw [lookup_skip _ _ (by decide)]; rw [lookup_skip _ _ (by decide)]; rw [lookup_skip _ _ (by decide)]; rw [lookup_skip _ _ (by decide)]; rw [lookup_skip _ _ (by decide)]; simp [List.lookup])]
  · unfold vehicle_sales_data
    simp only [List.append_assoc]
    rw [lookup_skip _ _ (by decide)]
    rw [lookup_hit _ _ (by rw [lookup_skip _ _ (by decide)]; rw [lookup_skip _ _ (by decide)]; rw [lookup_skip _ _ (by decide)]; rw [lookup_skip _ _ (by decide)]; rw [lookup_skip _ _ (by decide)]; rw [lookup_skip _ _ (by decide)]; rw [lookup_skip _ _ (by decide)]; rw [lookup_skip _ _ (by decide)]; rw [lookup_skip _ _ (by decide)]; rw [lookup_skip _ _ (by decide)]; rw [lookup_skip _ _ (by decide)]; rw [lookup_skip _ _ (by decide)]; rw [lookup_skip _ _ (by decide)]; rw [lookup_skip _ _ (by decide)]; rw [lookup_skip _ _ (by decide)]; rw [lookup_skip _ _ (by decide)]; simp [List.lookup])]
  · unfold vehicle_sales_data
    simp only [List.append_assoc]
    rw [lookup_skip _ _ (by decide)]
    rw [lookup_skip _ _ (by decide)]
    rw [lookup_hit _ _ (by rw [lookup_skip _ _ (by decide)]; rw [lookup_skip _ _ (by decide)]; rw [lookup_skip _ _ (by decide)]; rw [lookup_skip _ _ (by decide)]; rw [lookup_skip _ _ (by decide)]; rw [lookup_skip _ _ (by decide)]; rw [lookup_skip _ _ (by decide)]; rw [lookup_skip _ _ (by decide)]; rw [lookup_skip _ _ (by decide)]; rw [lookup_skip _ _ (by decide)]; rw [lookup_skip _ _ (by decide)]; rw [lookup_skip _ _ (by decide)]; rw [lookup_skip _ _ (by decide)]; rw [lookup_skip _ _ (by decide)]; rw [lookup_skip _ _ (by decide)]; simp [List.lookup])]
  · unfold vehicle_sales_data
    simp only [List.append_assoc]
    rw [lookup_skip _ _ (by decide)]
    rw [lookup_skip _ _ (by decide)]
    rw [lookup_skip _ _ (by decide)]
    rw [lookup_hit _ _ (by rw [lookup_skip _ _ (by decide)]; rw [lookup_skip _ _ (by decide)]; rw [lookup_skip _ _ (by decide)]; rw [lookup_skip _ _ (by decide)]; rw [lookup_skip _ _ (by decide)]; rw [lookup_skip _ _ (by decide)]; rw [lookup_skip _ _ (by decide)]; rw [lookup_skip _ _ (by decide)]; rw [lookup_skip _ _ (by decide)]; rw [lookup_skip _ _ (by decide)]; rw [lookup_skip _ _ (by decide)]; rw [lookup_skip _ _ (by decide)]; rw [lookup_skip _ _ (by decide)]; rw [lookup_skip _ _ (by decide)]; simp [List.lookup])]
  · unfold vehicle_sales_data
    simp only [List.append_assoc]
    rw [lookup_skip _ _ (by decide)]
    rw [lookup_skip _ _ (by decide)]
    rw [lookup_skip _ _ (by decide)]
    rw [lookup_skip _ _ (by decide)]
    rw [lookup_hit _ _ (by rw [lookup_skip _ _ (by decide)]; rw [lookup_skip _ _ (by decide)]; rw [lookup_skip _ _ (by decide)]; rw [lookup_skip _ _ (by decide)]; rw [lookup_skip _ _ (by decide)]; rw [lookup_skip _ _ (by decide)]; rw [lookup_skip _ _ (by decide)]; rw [lookup_skip _ _ (by decide)]; rw [lookup_skip _ _ (by decide)]; rw [lookup_skip _ _ (by decide)]; rw [lookup_skip _ _ (by decide)]; rw [lookup_skip _ _ (by decide)]; rw [lookup_skip _ _ (by decide)]; simp [List.lookup])]
  · unfold vehicle_sales_data
    simp only [List.append_assoc]
    rw [lookup_skip _ _ (by decide)]
    rw [lookup_skip _ _ (by decide)]
    rw [lookup_skip _ _ (by decide)]
    rw [lookup_skip _ _ (by decide)]
    rw [lookup_skip _ _ (by decide)]
    rw [lookup_hit _ _ (by rw [lookup_skip _ _ (by decide)]; rw [lookup_skip _ _ (by decide)]; rw [lookup_skip _ _ (by decide)]; rw [lookup_skip _ _ (by decide)]; rw [lookup_skip _ _ (by decide)]; rw [lookup_skip _ _ (by decide)]; rw [lookup_skip _ _ (by decide)]; rw [lookup_skip _ _ (by decide)]; rw [lookup_skip _ _ (by decide)]; rw [lookup_skip _ _ (by decide)]; rw [lookup_skip _ _ (by decide)]; rw [lookup_skip _ _ (by decide)]; simp [List.lookup])]
  · unfold vehicle_sales_data
    simp only [List.append_assoc]
    rw [lookup_skip _ _ (by decide)]
    rw [lookup_skip _ _ (by decide)]
    rw [lookup_skip _ _ (by decide)]
    rw [lookup_skip _ _ (by decide)]
    rw [lookup_skip _ _ (by decide)]
    rw [lookup_skip _ _ (by decide)]
    rw [lookup_hit _ _ (by rw [lookup_skip _ _ (by decide)]; rw [lookup_skip _ _ (by decide)]; rw [lookup_skip _ _ (by decide)]; rw [lookup_skip _ _ (by decide)]; rw [lookup_skip _ _ (by decide)]; rw [lookup_skip _ _ (by decide)]; rw [lookup_skip _ _ (by decide)]; rw [lookup_skip _ _ (by decide)]; rw [lookup_skip _ _ (by decide)]; rw [lookup_skip _ _ (by decide)]; rw [lookup_skip _ _ (by decide)]; simp [List.lookup])]
  · unfold vehicle_sales_data
    simp only [List.append_assoc]
    rw [lookup_skip _ _ (by decide)]
    rw [lookup_skip _ _ (by decide)]
    rw [lookup_skip _ _ (by decide)]
    rw [lookup_skip _ _ (by decide)]
    rw [lookup_skip _ _ (by decide)]
    rw [lookup_skip _ _ (by decide)]
    rw [lookup_skip _ _ (by decide)]
    rw [lookup_hit _ _ (by rw [lookup_skip _ _ (by decide)]; rw [lookup_skip _ _ (by decide)]; rw [lookup_skip _ _ (by decide)]; rw [lookup_skip _ _ (by decide)]; rw [lookup_skip _ _ (by decide)]; rw [lookup_skip _ _ (by decide)]; rw [lookup_skip _ _ (by decide)]; rw [lookup_skip _ _ (by decide)]; rw [lookup_skip _ _ (by decide)]; rw [lookup_skip _ _ (by decide)]; simp [List.lookup])]
  · unfold vehicle_sales_data
    simp only [List.append_assoc]
    rw [lookup_skip _ _ (by decide)]
    rw [lookup_skip _ _ (by decide)]
    rw [lookup_skip _ _ (by decide)]
    rw [lookup_skip _ _ (by decide)]
    rw [lookup_skip _ _ (by decide)]
    rw [lookup_skip _ _ (by decide)]
    rw [lookup_skip _ _ (by decide)]
    rw [lookup_skip _ _ (by decide)]
    rw [lookup_hit _ _ (by rw [lookup_skip _ _ (by decide)]; rw [lookup_skip _ _ (by decide)]; rw [lookup_skip _ _ (by decide)]; rw [lookup_skip _ _ (by decide)]; rw [lookup_skip _ _ (by decide)]; rw [lookup_skip _ _ (by decide)]; rw [lookup_skip _ _ (by decide)]; rw [lookup_skip _ _ (by decide)]; rw [lookup_skip _ _ (by decide)]; simp [List.lookup])]
  · unfold vehicle_sales_data
    simp only [List.append_assoc]
    rw [lookup_skip _ _ (by decide)]
    rw [lookup_skip _ _ (by decide)]
    rw [lookup_skip _ _ (by decide)]
    rw [lookup_skip _ _ (by decide)]
    rw [lookup_skip _ _ (by decide)]
    rw [lookup_skip _ _ (by decide)]
    rw [lookup_skip _ _ (by decide)]
    rw [lookup_skip _ _ (by decide)]
    rw [lookup_skip _ _ (by decide)]
    rw [lookup_hit _ _ (by rw [lookup_skip _ _ (by decide)]; rw [lookup_skip _ _ (by decide)]; rw [lookup_skip _ _ (by decide)]; rw [lookup_skip _ _ (by decide)]; rw [lookup_skip _ _ (by decide)]; rw [lookup_skip _ _ (by decide)]; rw [lookup_skip _ _ (by decide)]; rw [lookup_skip _ _ (by decide)]; simp [List.lookup])]
  · unfold vehicle_sales_data
    simp only [List.append_assoc]
    rw [lookup_skip _ _ (by decide)]
    rw [lookup_skip _ _ (by decide)]
    rw [lookup_skip _ _ (by decide)]
    rw [lookup_skip _ _ (by decide)]
    rw [lookup_skip _ _ (by decide)]
    rw [lookup_skip _ _ (by decide)]
    rw [lookup_skip _ _ (by decide)]
    rw [lookup_skip _ _ (by decide)]
    rw [lookup_skip _ _ (by decide)]
    rw [lookup_skip _ _ (by decide)]
    rw [lookup_hit _ _ (by rw [lookup_skip _ _ (by decide)]; rw [lookup_skip _ _ (by decide)]; rw [lookup_skip _ _ (by decide)]; rw [lookup_skip _ _ (by decide)]; rw [lookup_skip _ _ (by decide)]; rw [lookup_skip _ _ (by decide)]; rw [lookup_skip _ _ (by decide)]; simp [List.lookup])]
  · unfold vehicle_sales_data
    simp only [List.append_assoc]
    rw [lookup_skip _ _ (by decide)]
    rw [lookup_skip _ _ (by decide)]
    rw [lookup_skip _ _ (by decide)]
    rw [lookup_skip _ _ (by decide)]
    rw [lookup_skip _ _ (by decide)]
    rw [lookup_skip _ _ (by decide)]
    rw [lookup_skip _ _ (by decide)]
    rw [lookup_skip _ _ (by decide)]
    rw [lookup_skip _ _ (by decide)]
    rw [lookup_skip _ _ (by decide)]
    rw [lookup_skip _ _ (by decide)]
    rw [lookup_hit _ _ (by rw [lookup_skip _ _ (by decide)]; rw [lookup_skip _ _ (by decide)]; rw [lookup_skip _ _ (by decide)]; rw [lookup_skip _ _ (by decide)]; rw [lookup_skip _ _ (by decide)]; rw [lookup_skip _ _ (by decide)]; simp [List.lookup])]
  · unfold vehicle_sales_data
    simp only [List.append_assoc]
    rw [lookup_skip _ _ (by decide)]
    rw [lookup_skip _ _ (by decide)]
    rw [lookup_skip _ _ (by decide)]
    rw [lookup_skip _ _ (by decide)]
    rw [lookup_skip _ _ (by decide)]
    rw [lookup_skip _ _ (by decide)]
    rw [lookup_skip _ _ (by decide)]
    rw [lookup_skip _ _ (by decide)]
    rw [lookup_skip _ _ (by decide)]
    rw [lookup_skip _ _ (by decide)]
    rw [lookup_skip _ _ (by decide)]
    rw [lookup_skip _ _ (by decide)]
    rw [lookup_hit _ _ (by rw [lookup_skip _ _ (by decide)]; rw [lookup_skip _ _ (by decide)]; rw [lookup_skip _ _ (by decide)]; rw [lookup_skip _ _ (by decide)]; rw [lookup_skip _ _ (by decide)]; simp [List.lookup])]
  · unfold vehicle_sales_data
    simp only [List.append_assoc]
    rw [lookup_skip _ _ (by decide)]
    rw [lookup_skip _ _ (by decide)]
    rw [lookup_skip _ _ (by decide)]
    rw [lookup_skip _ _ (by decide)]
    rw [lookup_skip _ _ (by decide)]
    rw [lookup_skip _ _ (by decide)]
    rw [lookup_skip _ _ (by decide)]
    rw [lookup_skip _ _ (by decide)]
    rw [lookup_skip _ _ (by decide)]
    rw [lookup_skip _ _ (by decide)]
    rw [lookup_skip _ _ (by decide)]
    rw [lookup_skip _ _ (by decide)]
    rw [lookup_skip _ _ (by decide)]
    rw [lookup_hit _ _ (by rw [lookup_skip _ _ (by decide)]; rw [lookup_skip _ _ (by decide)]; rw [lookup_skip _ _ (by decide)]; rw [lookup_skip _ _ (by decide)]; simp [List.lookup])]
  · unfold vehicle_sales_data
    simp only [List.append_assoc]
    rw [lookup_skip _ _ (by decide)]
    rw [lookup_skip _ _ (by decide)]
    rw [lookup_skip _ _ (by decide)]
    rw [lookup_skip _ _ (by decide)]
    rw [lookup_skip _ _ (by decide)]
    rw [lookup_skip _ _ (by decide)]
    rw [lookup_skip _ _ (by decide)]
    rw [lookup_skip _ _ (by decide)]
    rw [lookup_skip _ _ (by decide)]
    rw [lookup_skip _ _ (by decide)]
    rw [lookup_skip _ _ (by decide)]
    rw [lookup_skip _ _ (by decide)]
    rw [lookup_skip _ _ (by decide)]
    rw [lookup_skip _ _ (by decide)]
    rw [lookup_hit _ _ (by rw [lookup_skip _ _ (by decide)]; rw [lookup_skip _ _ (by decide)]; rw [lookup_skip _ _ (by decide)]; simp [List.lookup])]
  · unfold vehicle_sales_data
    simp only [List.append_assoc]
    rw [lookup_skip _ _ (by decide)]
    rw [lookup_skip _ _ (by decide)]
    rw [lookup_skip _ _ (by decide)]
    rw [lookup_skip _ _ (by decide)]
    rw [lookup_skip _ _ (by decide)]
    rw [lookup_skip _ _ (by decide)]
    rw [lookup_skip _ _ (by decide)]
    rw [lookup_skip _ _ (by decide)]
    rw [lookup_skip _ _ (by decide)]
    rw [lookup_skip _ _ (by decide)]
    rw [lookup_skip _ _ (by decide)]
    rw [lookup_skip _ _ (by decide)]
    rw [lookup_skip _ _ (by decide)]
    rw [lookup_skip _ _ (by decide)]
    rw [lookup_skip _ _ (by decide)]
    rw [lookup_hit _ _ (by rw [lookup_skip _ _ (by decide)]; rw [lookup_skip _ _ (by decide)]; simp [List.lookup])]
  · unfold vehicle_sales_data
    simp only [List.append_assoc]
    rw [lookup_skip _ _ (by decide)]
    rw [lookup_skip _ _ (by decide)]
    rw [lookup_skip _ _ (by decide)]
    rw [lookup_skip _ _ (by decide)]
    rw [lookup_skip _ _ (by decide)]
    rw [lookup_skip _ _ (by decide)]
    rw [lookup_skip _ _ (by decide)]
    rw [lookup_skip _ _ (by decide)]
    rw [lookup_skip _ _ (by decide)]
    rw [lookup_skip _ _ (by decide)]
    rw [lookup_skip _ _ (by decide)]
    rw [lookup_skip _ _ (by decide)]
    rw [lookup_skip _ _ (by decide)]
    rw [lookup_skip _ _ (by decide)]
    rw [lookup_skip _ _ (by decide)]
    rw [lookup_skip _ _ (by decide)]
    rw [lookup_hit _ _ (by rw [lookup_skip _ _ (by decide)]; simp [List.lookup])]
  · unfold vehicle_sales_data
    simp only [List.append_assoc]
    rw [lookup_skip _ _ (by decide)]
    rw [lookup_skip _ _ (by decide)]
    rw [lookup_skip _ _ (by decide)]
    rw [lookup_skip _ _ (by decide)]
    rw [lookup_skip _ _ (by decide)]
    rw [lookup_skip _ _ (by decide)]
    rw [lookup_skip _ _ (by decide)]
    rw [lookup_skip _ _ (by decide)]
    rw [lookup_skip _ _ (by decide)]
    rw [lookup_skip _ _ (by decide)]
    rw [lookup_skip _ _ (by decide)]
    rw [lookup_skip _ _ (by decide)]
    rw [lookup_skip _ _ (by decide)]
    rw [lookup_skip _ _ (by decide)]
    rw [lookup_skip _ _ (by decide)]
    rw [lookup_skip _ _ (by decide)]
    rw [lookup_skip _ _ (by decide)]
    rw [lookup_hit _ _ (by simp [List.lookup])]
  · unfold vehicle_sales_data
    simp only [List.append_assoc]
    rw [lookup_skip _ _ (by decide)]
    rw [lookup_skip _ _ (by decide)]
    rw [lookup_skip _ _ (by decide)]
    rw [lookup_skip _ _ (by decide)]
    rw [lookup_skip _ _ (by decide)]
    rw [lookup_skip _ _ (by decide)]
    rw [lookup_skip _ _ (by decide)]
    rw [lookup_skip _ _ (by decide)]
    rw [lookup_skip _ _ (by decide)]
    rw [lookup_skip _ _ (by decide)]
    rw [lookup_skip _ _ (by decide)]
    rw [lookup_skip _ _ (by decide)]
    rw [lookup_skip _ _ (by decide)]
    rw [lookup_skip _ _ (by decide)]
    rw [lookup_skip _ _ (by decide)]
    rw [lookup_skip _ _ (by decide)]
    rw [lookup_skip _ _ (by decide)]
    rw [lookup_skip _ _ (by decide)]
    simp [List.lookup]
  · intro v
    unfold truncate_string
    split
    · simp
    · omega
  · intro v hv
    unfold truncate_string
    rw [if_pos hv]

/-- The concrete record used by the C10 counterexample: a 60-character
sale date and a 60-character lot link. -/
def salesRecC10 : SalesRecord :=
  { site_name := none, lot_number := none, make := none, model := none,
    year := none, grade := none, model_type := none, mileage := none,
    displacement := none, transmission := none, color := none, auction := none,
    sale_date := some (List.replicate 60 'd'), end_price := none, result := none,
    scores := none, url := none, lot_link := some (List.replicate 60 'x') }

/-- Claim C10 (counterexample): the claim says every string field of the
record is truncated to at most 50 characters, but `sale_date` is only
stripped, never truncated: a 60-character sale date is stored with all 60
characters (while the 60-character lot link is indeed stored as its first 50
characters). -/
theorem sales_truncation_claim_counterexample :
    List.lookup "sale_date" (vehicle_sales_data salesRecC10 "T0".toList)
      = some (FieldVal.s (List.replicate 60 'd'))
  ∧ 50 < (List.replicate 60 'd').length
  ∧ List.lookup "lot_link" (vehicle_sales_data salesRecC10 "T0".toList)
      = some (FieldVal.s (List.replicate 50 'x')) := by
  refine ⟨by decide, by decide, by decide⟩

/-- Witness for the amended C10 theorem: a 60-character link is stored as
its first 50 characters. -/
theorem sales_truncation_amended_witness :
    truncate_string (List.replicate 60 'x') = (List.replicate 60 'x').take 50 :=
  (sales_truncation_amended salesRecC10 "T0".toList).2.2.2.2.2.2.2.2.2.2.2.2.2.2.2.2.2.2.2.2
    (List.replicate 60 'x') (by decide)

/-!  Memory-optimized browser pool (backup_before_reorganization/get_data.py),
modelled as a transition system. Browsers are identifiers; `available` is the
asyncio queue, `inUse` the in-use set, `holds` records which caller holds
which browser (callers release only browsers they hold, matching the
intended protocol of `get_browser`/`return_browser`); `_periodic_cleanup`
drains the queue, closes stale browsers and replaces each successfully
recreated one with a fresh browser, in one step (the claim's "momentary"
recycling window). -/

structure PoolState where
  poolSize : Nat
  available : List Nat
  inUse : List Nat
  holds : List (Nat × Nat)
  nextId : Nat
deriving DecidableEq, Repr

/-- `initialize`: `poolSize` fresh browsers in the queue. -/
def initPool (n : Nat) : PoolState :=
  { poolSize := n, available := List.range n, inUse := [], holds := [], nextId := n }

/-- One operation on the pool: `get_browser` (queue pop + in-use add),
`return_browser` by a caller holding the browser (in-use remove + queue
put), or one `_periodic_cleanup` pass replacing `k` of the stale idle
browsers with fresh ones (`k` at most the number of stale idle browsers;
a failed recreation drops the browser). -/
inductive PoolStep : PoolState → PoolState → Prop
  | acquire (s : PoolState) (c b : Nat) (rest : List Nat)
      (h : s.available = b :: rest) :
      PoolStep s { s with available := rest, inUse := b :: s.inUse,
                          holds := (c, b) :: s.holds }
  | release (s : PoolState) (c b : Nat) (h : (c, b) ∈ s.holds) :
      PoolStep s { s with available := s.available ++ [b],
                          inUse := s.inUse.erase b,
                          holds := s.holds.erase (c, b) }
  | recycle (s : PoolState) (stale : Nat → Bool) (k : Nat)
      (hk : k ≤ (s.available.filter stale).length) :
      PoolStep s { s with
        available := s.available.filter (fun b => ! stale b)
          ++ (List.range k).map (fun i => s.nextId + i),
        nextId := s.nextId + k }

/-- States reachable from a freshly initialized pool. -/
inductive PoolReach (n : Nat) : PoolState → Prop
  | init : PoolReach n (initPool n)
  | step {s s' : PoolState} : PoolReach n s → PoolStep s s' → PoolReach n s'

/-- The pool invariant: no browser is in two places at once (queue and
in-use set are disjoint and duplicate-free), the total never exceeds the
pool size, the in-use set is exactly the held browsers, no browser is held
by two callers, and all live ids are below the fresh-id counter. -/
def PoolInv (s : PoolState) : Prop :=
  (s.available ++ s.inUse).Nodup
  ∧ s.available.length + s.inUse.length ≤ s.poolSize
  ∧ (∀ b, b ∈ s.inUse ↔ ∃ c, (c, b) ∈ s.holds)
  ∧ (s.holds.map Prod.snd).Nodup
  ∧ (∀ b ∈ s.available ++ s.inUse, b < s.nextId)

lemma snd_nodup_unique {l : List (Nat × Nat)} (h : (l.map Prod.snd).Nodup)
    {c1 c2 b : Nat} (h1 : (c1, b) ∈ l) (h2 : (c2, b) ∈ l) : c1 = c2 := by
  induction l with
  | nil => exact absurd h1 (List.not_mem_nil _)
  | cons p t ih =>
    rw [List.map_cons] at h
    have hh := List.nodup_cons.mp h
    rcases List.mem_cons.mp h1 with he1 | h1' <;> rcases List.mem_cons.mp h2 with he2 | h2'
    · exact congrArg Prod.fst (he1.trans he2.symm)
    · have hb : (b : Nat) ∈ t.map Prod.snd := List.mem_map_of_mem Prod.snd h2'
      have hp2 : p.2 = b := (congrArg Prod.snd he1).symm
      exact absurd hb (hp2 ▸ hh.1)
    · have hb : (b : Nat) ∈ t.map Prod.snd := List.mem_map_of_mem Prod.snd h1'
      have hp2 : p.2 = b := (congrArg Prod.snd he2).symm
      exact absurd hb (hp2 ▸ hh.1)
    · exact ih hh.2 h1' h2'

lemma poolInv_init (n : Nat) : PoolInv (initPool n) := by
  refine ⟨?_, ?_, ?_, ?_, ?_⟩
  · simp [initPool, List.nodup_range]
  · simp [initPool]
  · simp [initPool]
  · simp [initPool]
  · intro b hb
    simp only [initPool, List.append_nil] at hb ⊢
    exact List.mem_range.mp hb

lemma poolInv_acquire {s : PoolState} (inv : PoolInv s) (c b : Nat)
    (rest : List Nat) (h : s.available = b :: rest) :
    PoolInv { s with available := rest, inUse := b :: s.inUse,
                     holds := (c, b) :: s.holds } := by
  obtain ⟨hnd, hlen, hiff, hsnd, hlt⟩ := inv
  rw [h] at hnd hlen hlt
  have hnd' : (b :: (rest ++ s.inUse)).Nodup := by
    rw [← List.cons_append]
    exact hnd
  have hbni : b ∉ s.inUse := fun hb =>
    (List.nodup_cons.mp hnd').1 (List.mem_append_right rest hb)
  refine ⟨?_, ?_, ?_, ?_, ?_⟩
  · exact List.perm_middle.nodup_iff.mpr hnd'
  · simp only [List.length_cons] at hlen ⊢
    omega
  · intro b'
    constructor
    · intro hb'
      rcases List.mem_cons.mp hb' with rfl | hb''
      · exact ⟨c, List.mem_cons_self _ _⟩
      · obtain ⟨c', hc'⟩ := (hiff b').mp hb''
        exact ⟨c', List.mem_cons_of_mem _ hc'⟩
    · rintro ⟨c', hc'⟩
      rcases List.mem_cons.mp hc' with he | hc''
      · have : b' = b := congrArg Prod.snd he
        exact this ▸ List.mem_cons_self _ _
      · exact List.mem_cons_of_mem _ ((hiff b').mpr ⟨c', hc''⟩)
  · refine List.nodup_cons.mpr ⟨?_, hsnd⟩
    intro hb
    rcases List.mem_map.mp hb with ⟨⟨c', b'⟩, hp, hpe⟩
    have : b' = b := hpe
    exact hbni ((hiff b).mpr ⟨c', this ▸ hp⟩)
  · intro b' hb'
    refine hlt b' ?_
    rw [List.cons_append]
    exact List.perm_middle.subset hb'

lemma poolInv_release {s : PoolState} (inv : PoolInv s) (c b : Nat)
    (h : (c, b) ∈ s.holds) :
    PoolInv { s with available := s.available ++ [b],
                     inUse := s.inUse.erase b,
                     holds := s.holds.erase (c, b) } := by
  obtain ⟨hnd, hlen, hiff, hsnd, hlt⟩ := inv
  have hbu : b ∈ s.inUse := (hiff b).mpr ⟨c, h⟩
  have hndu : s.inUse.Nodup := (List.nodup_append.mp hnd).2.1
  have hpairs : s.holds.Nodup := hsnd.of_map
  have hperm : (s.available ++ [b] ++ s.inUse.erase b).Perm
      (s.available ++ s.inUse) := by
    rw [List.append_assoc]
    exact List.Perm.append_left s.available
      (by simpa using (List.perm_cons_erase hbu).symm)
  refine ⟨?_, ?_, ?_, ?_, ?_⟩
  · exact hperm.nodup_iff.mpr hnd
  · have he : (s.inUse.erase b).length = s.inUse.length - 1 :=
      List.length_erase_of_mem hbu
    have hpos : 1 ≤ s.inUse.length := List.length_pos.mpr
      (fun hne => by rw [hne] at hbu; exact absurd hbu (List.not_mem_nil b))
    simp only [List.length_append, List.length_cons, List.length_nil, he]
    omega
  · intro b'
    rw [hndu.mem_erase_iff]
    constructor
    · rintro ⟨hne, hmem⟩
      obtain ⟨c', hc'⟩ := (hiff b').mp hmem
      refine ⟨c', (hpairs.mem_erase_iff).mpr ⟨?_, hc'⟩⟩
      intro he
      exact hne (congrArg Prod.snd he)
    · rintro ⟨c', hc'⟩
      obtain ⟨hne', hmem'⟩ := (hpairs.mem_erase_iff).mp hc'
      refine ⟨?_, (hiff b').mpr ⟨c', hmem'⟩⟩
      rintro rfl
      exact hne' (by rw [snd_nodup_unique hsnd hmem' h])
  · exact hsnd.sublist (List.Sublist.map Prod.snd (List.erase_sublist (c, b) s.holds))
  · intro b' hb'
    refine hlt b' ?_
    have h1 : b' ∈ s.available ++ [b] ++ s.inUse.erase b := hb'
    exact hperm.subset h1

lemma poolInv_recycle {s : PoolState} (inv : PoolInv s) (stale : Nat → Bool)
    (k : Nat) (hk : k ≤ (s.available.filter stale).length) :
    PoolInv { s with
      available := s.available.filter (fun b => ! stale b)
        ++ (List.range k).map (fun i => s.nextId + i),
      nextId := s.nextId + k } := by
  obtain ⟨hnd, hlen, hiff, hsnd, hlt⟩ := inv
  have hnda := (List.nodup_append.mp hnd).1
  have hndu := (List.nodup_append.mp hnd).2.1
  have hdis := (List.nodup_append.mp hnd).2.2
  have hfs : List.Sublist (s.available.filter (fun b => ! stale b)) s.available :=
    List.filter_sublist s.available
  have hnews : ((List.range k).map (fun i => s.nextId + i)).Nodup :=
    (List.nodup_range k).map (fun i j hij => by omega)
  have hlta : ∀ b ∈ s.available, b < s.nextId :=
    fun b hb => hlt b (List.mem_append_left _ hb)
  have hltu : ∀ b ∈ s.inUse, b < s.nextId :=
    fun b hb => hlt b (List.mem_append_right _ hb)
  have hnewge : ∀ b ∈ (List.range k).map (fun i => s.nextId + i),
      s.nextId ≤ b ∧ b < s.nextId + k := by
    intro b hb
    rcases List.mem_map.mp hb with ⟨i, hi, rfl⟩
    have := List.mem_range.mp hi
    omega
  refine ⟨?_, ?_, ?_, ?_, ?_⟩
  · rw [List.append_assoc]
    refine List.nodup_append.mpr ⟨hnda.sublist hfs, ?_, ?_⟩
    · refine List.nodup_append.mpr ⟨hnews, hndu, ?_⟩
      intro b hb hbu
      exact absurd (hltu b hbu) (by
        have := (hnewge b hb).1
        omega)
    · intro b hb hbb
      have hba : b ∈ s.available := hfs.subset hb
      rcases List.mem_append.mp hbb with hb1 | hb2
      · exact absurd (hlta b hba) (by
          have := (hnewge b hb1).1
          omega)
      · exact hdis hba hb2
  · have hperm := List.filter_append_perm stale s.available
    have hlen2 : (s.available.filter stale).length
        + (s.available.filter (fun b => ! stale b)).length
        = s.available.length := by
      have := hperm.length_eq
      simpa using this
    simp only [List.length_append, List.length_map, List.length_range]
    omega
  · exact hiff
  · exact hsnd
  · intro b hb
    show b < s.nextId + k
    rcases List.mem_append.mp hb with hb1 | hb2
    · rcases List.mem_append.mp hb1 with hb3 | hb4
      · have := hlta b (hfs.subset hb3)
        omega
      · exact (hnewge b hb4).2
    · have := hltu b hb2
      omega

/-- Claim C4: in every state reachable by acquire/release/recycle
interleavings the pool invariant holds — the idle queue and the in-use set
are disjoint and duplicate-free (a session is in at most one of them), the
in-use set is exactly the set of held sessions with no session held by two
callers, and the total number of sessions (idle + in-use) never exceeds the
configured pool size (recycling is one atomic step, covering the claim's
"except momentarily during recycling") — and consequently no session in the
idle queue (hence none that `acquire` can return) is currently held by any
caller. -/
theorem pool_invariant (n : Nat) (s : PoolState) (h : PoolReach n s) :
    PoolInv s
  ∧ (∀ b ∈ s.available, ∀ p ∈ s.holds, p.2 ≠ b)
  ∧ s.available.length + s.inUse.length ≤ s.poolSize := by
  have hinv : PoolInv s := by
    induction h with
    | init => exact poolInv_init n
    | step hr hs ih =>
      cases hs with
      | acquire c b rest h => exact poolInv_acquire ih c b rest h
      | release c b h => exact poolInv_release ih c b h
      | recycle stale k hk => exact poolInv_recycle ih stale k hk
  refine ⟨hinv, ?_, hinv.2.1⟩
  intro b hb p hp he
  obtain ⟨hnd, _, hiff, _, _⟩ := hinv
  have hpb : (p.1, b) = p := by rw [← he]
  have hbu : b ∈ s.inUse := (hiff b).mpr ⟨p.1, hpb ▸ hp⟩
  exact (List.nodup_append.mp hnd).2.2 hb hbu

/-- Witness for the C4 theorem at the concrete two-browser pool after one
acquire step. -/
theorem pool_invariant_witness :
    PoolInv { poolSize := 2, available := [1], inUse := [0],
              holds := [(7, 0)], nextId := 2 }
  ∧ (∀ b ∈ ({ poolSize := 2, available := [1], inUse := [0],
              holds := [(7, 0)], nextId := 2 } : PoolState).available,
      ∀ p ∈ ({ poolSize := 2, available := [1], inUse := [0],
               holds := [(7, 0)], nextId := 2 } : PoolState).holds, p.2 ≠ b)
  ∧ ({ poolSize := 2, available := [1], inUse := [0],
       holds := [(7, 0)], nextId := 2 } : PoolState).available.length
      + ({ poolSize := 2, available := [1], inUse := [0],
           holds := [(7, 0)], nextId := 2 } : PoolState).inUse.length
      ≤ ({ poolSize := 2, available := [1], inUse := [0],
           holds := [(7, 0)], nextId := 2 } : PoolState).poolSize :=
  pool_invariant 2 _
    (PoolReach.step PoolReach.init (PoolStep.acquire (initPool 2) 7 0 [1] rfl))
